import Mathlib

/-!
# Data-center directory of the MTProto client (`mtproto/mtpDC.cpp`)

A shallow embedding of the DC registry, the authorization-key write-through
index, the main-DC scalars, the DC-options table and the config loader of
`mtpDC.cpp`, followed by theorems about them.

Conventions of the embedding:

* `int32` values (DC ids, ports, user ids) are `Int`; none of the functions
  embedded here does arithmetic on them.
* `mtpAuthKeyPtr` is a shared pointer that may be null: `Option mtpAuthKey`.
* `QMap<int32, V>` is an association list kept in ascending key order
  (`QMap V`), with the lookups, insertion and removal of Qt.
* `QSet<int32>` is a duplicate-free list (`QSet`); its Qt iteration order is
  hash-determined, so only membership is meaningful.
* Calls into other modules (`MTP::send`, `MTP::restart`,
  `Local::writeMtpData`) are appended to an effect log.
* A queued signal connection is a counter (or, for a signal with arguments,
  a list) of posted, not yet delivered emissions held with the receiving
  object.
* Request handles returned by `MTP::send` are arguments of the functions that
  send; the constant `MTP::cfg`, declared in another module, is the argument
  `cfg`, and `MTP::cfg + dc` is computed without overflow (DC ids are small).
-/

namespace MtpDC

/-! ## Qt containers -/

/-- Association list standing for `QMap<int32, V>`: entries in ascending key order. -/
abbrev QMap (V : Type) := List (Int × V)

namespace QMap

variable {V : Type}

/-- Representation invariant of `QMap`: keys strictly ascending (hence unique). -/
def WF (m : QMap V) : Prop := m.Pairwise (fun a b => a.1 < b.1)

instance WF.decidable (m : QMap V) : Decidable (WF m) :=
  inferInstanceAs (Decidable (List.Pairwise (fun (a b : Int × V) => a.1 < b.1) m))

/-- Lookup as in `QMap::constFind` / `QMap::value`: the entry stored under `k`, if any. -/
def constFind (k : Int) : QMap V → Option V
  | [] => none
  | (k', v) :: rest => if k' = k then some v else constFind k rest

/-- Insertion as in `QMap::insert` and `operator[] =`: replaces the value of an existing key. -/
def insert (k : Int) (v : V) : QMap V → QMap V
  | [] => [(k, v)]
  | (k', v') :: rest =>
    if k < k' then (k, v) :: (k', v') :: rest
    else if k = k' then (k, v) :: rest
    else (k', v') :: insert k v rest

/-- Removal as in `QMap::remove`: drops every entry stored under `k`. -/
def remove (k : Int) : QMap V → QMap V
  | [] => []
  | (k', v) :: rest => if k' = k then remove k rest else (k', v) :: remove k rest

/-- Key list as in `QMap::keys`, in iteration (ascending) order. -/
def keys (m : QMap V) : List Int := m.map Prod.fst

/-- Value list in iteration order, as produced by walking `cbegin()..cend()`. -/
def values (m : QMap V) : List V := m.map Prod.snd

end QMap

/-- Duplicate-free list standing for `QSet<int32>`. -/
abbrev QSet := List Int

namespace QSet

/-- Membership test, `constFind(x) != cend()`. -/
def contains (x : Int) (s : QSet) : Bool := decide (x ∈ s)

/-- Insertion as in `QSet::insert`: no effect when the element is present. -/
def insert (x : Int) (s : QSet) : QSet := if x ∈ s then s else s ++ [x]

end QSet

/-! ## Data model -/

/-- Modelled from the spec: the class `mtpAuthKey` is declared outside
`mtpDC.cpp`; it is an opaque secret with a derived numeric key id
(`keyId()`), and only its identity matters here. -/
structure mtpAuthKey where
  keyId : Nat
  deriving DecidableEq, Repr

/-- Nullable shared pointer to a key (`mtpAuthKeyPtr`); `none` is the null
pointer, which the source tests with `if (_key)`. -/
abbrev mtpAuthKeyPtr := Option mtpAuthKey

/-- Modelled from the spec: the struct `mtpDcOption` is declared outside
`mtpDC.cpp`; it holds a DC id, hostname, ip and port, in the order of the
constructor call in `mtpUpdateDcOptions`. -/
structure mtpDcOption where
  id : Int
  host : String
  ip : String
  port : Int
  deriving DecidableEq, Repr

/-- Modelled from the spec: the type `MTPDdcOption` of a received option is
declared outside `mtpDC.cpp`; the fields are those `mtpUpdateDcOptions` reads
(`vid`, `vhostname`, `vip_address`, `vport`). -/
structure MTPDcOption where
  vid : Int
  vhostname : String
  vip_address : String
  vport : Int
  deriving DecidableEq, Repr

/-- Modelled from the spec: the type `mtpDcOptions` is declared outside
`mtpDC.cpp`; it maps a DC id to its one stored option, keys unique, with the
map interface the source uses (`constFind`, `insert`, `cbegin`). -/
abbrev mtpDcOptions := QMap mtpDcOption

/-- Calls into other modules and signals emitted to them, in the order they
are made. `sendGetConfig dc request` is `MTP::send(MTPhelp_GetConfig(), ...)`
returning the handle `request`, with `dc = none` for the call without a DC
argument (the dispatcher then uses the main DC) and `dc = some t` for the
call with DC argument `t`; `timerStart` and `timerStop` are
`_enumDCTimer.start(MTPEnumDCTimeout)` and `_enumDCTimer.stop()`; `loaded` is
the emission of the signal `loaded()`. -/
inductive Effect where
  | sendLogOut (dc : Int)
  | restart (dc : Int)
  | writeMtpData
  | sendGetConfig (dc : Option Int) (request : Int)
  | cancel (request : Int)
  | killSession (dc : Int)
  | writeSettings
  | timerStart
  | timerStop
  | loaded
  deriving DecidableEq, Repr

/-- Modelled from the spec: the class `MTProtoDC` is declared in `mtpDC.h`,
outside the sources; its members are the three the constructor of
`mtpDC.cpp` sets up. `queuedAuthKeyCreated` counts the emissions of
`authKeyCreated()` posted to this object through the queued connection to
`authKeyWrite()` that the constructor makes, and not yet delivered. -/
structure MTProtoDC where
  _id : Int
  _key : mtpAuthKeyPtr
  _connectionInited : Bool
  queuedAuthKeyCreated : Nat
  deriving DecidableEq, Repr

/-- Modelled from the spec: the type `MTProtoDCMap` is declared in
`mtpDC.h`; it maps a DC id to the record registered for it. -/
abbrev MTProtoDCMap := QMap MTProtoDC

/-- File-level variables of `mtpDC.cpp`, the stored settings it reads and
writes (`cDcOptions`, `cMaxGroupCount`), and the log of calls made into other
modules. -/
structure State where
  gDCs : MTProtoDCMap
  configLoadedOnce : Bool
  mainDCChanged : Bool
  mainDC : Int
  userId : Int
  _keysMapForWrite : QMap mtpAuthKey
  loadingConfig : Bool
  cDcOptions : mtpDcOptions
  cMaxGroupCount : Int
  effects : List Effect
  deriving DecidableEq, Repr

/-- Values of the file-level variables at program start; the stored settings,
which other modules set up, are taken empty. -/
def State.initial : State :=
  { gDCs := [], configLoadedOnce := false, mainDCChanged := false, mainDC := 2,
    userId := 0, _keysMapForWrite := [], loadingConfig := false,
    cDcOptions := [], cMaxGroupCount := 0, effects := [] }

/-! ## Scalars -/

/-- Function `mtpAuthed()`. -/
def mtpAuthed (s : State) : Int := s.userId

/-- Function `mtpAuthed(uid)`. -/
def mtpAuthedSet (uid : Int) (s : State) : State :=
  if s.userId ≠ uid then { s with userId := uid } else s

/-- Function `mtpNeedConfig()`. -/
def mtpNeedConfig (s : State) : Bool := !s.configLoadedOnce

/-- Function `mtpMainDC()`. -/
def mtpMainDC (s : State) : Int := s.mainDC

/-- Function `mtpSetDC(dc, firstOnly)`. -/
def mtpSetDC (dc : Int) (firstOnly : Bool) (s : State) : State :=
  if dc = 0 ∨ (firstOnly = true ∧ s.mainDCChanged = true) then s
  else
    let s1 := { s with mainDCChanged := true }
    if dc ≠ s1.mainDC then { s1 with mainDC := dc } else s1

/-! ## Authorization keys -/

/-- Shared tail of the constructor and of `setKey`: under the mutex, store the
key under `_id` when it is non-null and remove the entry otherwise. -/
def writeKeyIndex (id : Int) (key : mtpAuthKeyPtr) (idx : QMap mtpAuthKey) : QMap mtpAuthKey :=
  match key with
  | some k => QMap.insert id k idx
  | none => QMap.remove id idx

/-- Constructor `MTProtoDC::MTProtoDC(id, key)`. -/
def MTProtoDC.new (id : Int) (key : mtpAuthKeyPtr) (s : State) : MTProtoDC × State :=
  ({ _id := id, _key := key, _connectionInited := false, queuedAuthKeyCreated := 0 },
   { s with _keysMapForWrite := writeKeyIndex id key s._keysMapForWrite })

/-- Slot `MTProtoDC::authKeyWrite()`. -/
def MTProtoDC.authKeyWrite (self : MTProtoDC) (s : State) : State :=
  if self._key.isSome then { s with effects := s.effects ++ [Effect.writeMtpData] } else s

/-- Method `MTProtoDC::setKey(key)`. -/
def MTProtoDC.setKey (self : MTProtoDC) (key : mtpAuthKeyPtr) (s : State) : MTProtoDC × State :=
  let self1 := { self with _key := key, _connectionInited := false }
  let self2 := { self1 with queuedAuthKeyCreated := self1.queuedAuthKeyCreated + 1 }
  (self2, { s with _keysMapForWrite := writeKeyIndex self2._id self2._key s._keysMapForWrite })

/-- Method `MTProtoDC::getKey()`. -/
def MTProtoDC.getKey (self : MTProtoDC) : mtpAuthKeyPtr := self._key

/-- Method `MTProtoDC::destroyKey()`. -/
def MTProtoDC.destroyKey (self : MTProtoDC) (s : State) : MTProtoDC × State :=
  let r := self.setKey none s
  (r.1, { r.2 with _keysMapForWrite := QMap.remove r.1._id r.2._keysMapForWrite })

/-- Event-loop delivery of one posted `authKeyCreated()` emission to the
object: the slot `authKeyWrite()` runs. Nothing happens when none is posted. -/
def MTProtoDC.deliverAuthKeyCreated (self : MTProtoDC) (s : State) : MTProtoDC × State :=
  if self.queuedAuthKeyCreated = 0 then (self, s)
  else ({ self with queuedAuthKeyCreated := self.queuedAuthKeyCreated - 1 }, self.authKeyWrite s)

/-- Function `mtpGetKeys()`. -/
def mtpGetKeys (s : State) : List mtpAuthKey := QMap.values s._keysMapForWrite

/-- Function `mtpSetKey(dcId, key)`. -/
def mtpSetKey (dcId : Int) (key : mtpAuthKeyPtr) (s : State) : State :=
  let r := MTProtoDC.new dcId key s
  { r.2 with gDCs := QMap.insert dcId r.1 r.2.gDCs }

/-- Function `mtpLogoutOtherDCs()`; `maindc` is the value `MTP::maindc()` returns during the call. -/
def mtpLogoutOtherDCs (maindc : Int) (s : State) : State :=
  let dcs := QMap.keys s._keysMapForWrite
  { s with effects := s.effects ++ (dcs.filter (fun d => decide (d ≠ maindc))).map Effect.sendLogOut }

/-! ## DC-options table -/

/-- Loop body of `mtpUpdateDcOptions` over the remaining options, threading the
locals `already`, `restart` and `opts`. -/
def mtpUpdateDcOptions.loop :
    List MTPDcOption → QSet → QSet → mtpDcOptions → QSet × QSet × mtpDcOptions
  | [], already, restart, opts => (already, restart, opts)
  | optData :: rest, already, restart, opts =>
    if QSet.contains optData.vid already = false then
      let already1 := QSet.insert optData.vid already
      let restart1 :=
        match QMap.constFind optData.vid opts with
        | some a =>
          if a.ip ≠ optData.vip_address ∨ a.port ≠ optData.vport then
            QSet.insert optData.vid restart
          else restart
        | none => restart
      let opts1 := QMap.insert optData.vid
        (mtpDcOption.mk optData.vid optData.vhostname optData.vip_address optData.vport) opts
      mtpUpdateDcOptions.loop rest already1 restart1 opts1
    else mtpUpdateDcOptions.loop rest already restart opts

/-- Set `restart` as it stands when the loop of `mtpUpdateDcOptions(options)` ends. -/
def restartSet (options : List MTPDcOption) (s : State) : QSet :=
  (mtpUpdateDcOptions.loop options [] [] s.cDcOptions).2.1

/-- Function `mtpUpdateDcOptions(options)`: the table is stored with
`cSetDcOptions`, then `MTP::restart` is called for every member of `restart`. -/
def mtpUpdateDcOptions (options : List MTPDcOption) (s : State) : State :=
  let r := mtpUpdateDcOptions.loop options [] [] s.cDcOptions
  { s with cDcOptions := r.2.2, effects := s.effects ++ r.2.1.map Effect.restart }

/-! ## Runs of key operations -/

/-- Member function call on the record registered under `d`: the record is
reached through the registry and the registry sees its new state. Fails when
no record is registered under `d`. -/
def onRecord (d : Int) (f : MTProtoDC → State → MTProtoDC × State) (s : State) : Option State :=
  match QMap.constFind d s.gDCs with
  | none => none
  | some dc =>
    let r := f dc s
    some { r.2 with gDCs := QMap.insert d r.1 r.2.gDCs }

/-- Key operations a client of the module performs. -/
inductive KeyOp where
  | create (id : Int) (key : mtpAuthKeyPtr)
  | setKey (id : Int) (key : mtpAuthKeyPtr)
  | destroyKey (id : Int)
  deriving DecidableEq, Repr

/-- DC id a key operation is addressed to. -/
def KeyOp.id : KeyOp → Int
  | .create id _ => id
  | .setKey id _ => id
  | .destroyKey id => id

/-- One key operation; `none` when it addresses a record that is not registered. -/
def KeyOp.apply (s : State) : KeyOp → Option State
  | .create id key => some (mtpSetKey id key s)
  | .setKey id key => onRecord id (fun dc st => dc.setKey key st) s
  | .destroyKey id => onRecord id (fun dc st => dc.destroyKey st) s

/-- A sequence of key operations, left to right; `none` as soon as one fails. -/
def runKeyOps (ops : List KeyOp) (s : State) : Option State :=
  ops.foldlM (fun st op => op.apply st) s

/-- Whether every `setKey` and `destroyKey` of the sequence addresses a DC id
for which a record was created earlier in the sequence or is listed in `reg`. -/
def addressesRegistered : List KeyOp → List Int → Bool
  | [], _ => true
  | KeyOp.create id _ :: rest, reg => addressesRegistered rest (id :: reg)
  | KeyOp.setKey id _ :: rest, reg => decide (id ∈ reg) && addressesRegistered rest reg
  | KeyOp.destroyKey id :: rest, reg => decide (id ∈ reg) && addressesRegistered rest reg

/-- Key a key operation leaves its DC with (null for `destroyKey`). -/
def KeyOp.key : KeyOp → mtpAuthKeyPtr
  | .create _ key => key
  | .setKey _ key => key
  | .destroyKey _ => none

/-- Specification side of the key index: the most recent operation of `ops`
addressed to `d`, if any. -/
def lastOp (d : Int) (ops : List KeyOp) : Option KeyOp :=
  (ops.filter (fun o => decide (o.id = d))).getLast?

/-- Specification side of the key index: the non-empty key the most recent
operation addressed to `d` was a creation or `setKey` with, if it was one. -/
def lastKey (d : Int) (ops : List KeyOp) : mtpAuthKeyPtr :=
  (lastOp d ops).bind KeyOp.key

/-- Specification side of `mtpUpdateDcOptions`: first option of `L` for DC `d`. -/
def firstOption (d : Int) (L : List MTPDcOption) : Option MTPDcOption :=
  L.find? (fun o => decide (o.vid = d))

/-- Specification side of `mtpUpdateDcOptions`: `L` without the later
duplicates of each id (`seen` holds the ids that already occurred). -/
def dropLaterDuplicates : List MTPDcOption → List Int → List MTPDcOption
  | [], _ => []
  | o :: rest, seen =>
    if o.vid ∈ seen then dropLaterDuplicates rest seen
    else o :: dropLaterDuplicates rest (o.vid :: seen)

/-- Table entry `mtpUpdateDcOptions` builds from a received option. -/
def MTPDcOption.toStored (o : MTPDcOption) : mtpDcOption :=
  mtpDcOption.mk o.vid o.vhostname o.vip_address o.vport

/-- Consistency of registry and key index after the operations `ops`: the
index is a well-formed map holding for every DC the key its most recent
operation left, and every record is registered under its own id and holds
the key the index has for that id. -/
def KeysInv (ops : List KeyOp) (s : State) : Prop :=
  QMap.WF s._keysMapForWrite ∧
  (∀ d, QMap.constFind d s._keysMapForWrite = lastKey d ops) ∧
  (∀ d dc, QMap.constFind d s.gDCs = some dc →
    dc._id = d ∧ QMap.constFind d s._keysMapForWrite = dc._key)

/-- Operations on one record object: its two key methods and the delivery of
one posted `authKeyCreated()` emission. -/
inductive RecordOp where
  | setKey (key : mtpAuthKeyPtr)
  | destroyKey
  | deliver
  deriving DecidableEq, Repr

/-- One operation on a record object and the module state. -/
def RecordOp.apply (r : MTProtoDC × State) : RecordOp → MTProtoDC × State
  | .setKey key => r.1.setKey key r.2
  | .destroyKey => r.1.destroyKey r.2
  | .deliver => r.1.deliverAuthKeyCreated r.2

/-- A sequence of operations on one record object, left to right. -/
def runRecordOps (ops : List RecordOp) (r : MTProtoDC × State) : MTProtoDC × State :=
  ops.foldl RecordOp.apply r

/-- Number of `setKey` and `destroyKey` calls in a sequence. -/
def keyCalls (ops : List RecordOp) : Nat :=
  (ops.filter (fun o => decide (o ≠ RecordOp.deliver))).length

/-- Number of `Local::writeMtpData()` calls made so far. -/
def writes (s : State) : Nat := s.effects.count Effect.writeMtpData

/-- Specification side of the restart rule: the held entry `a` and the
incoming option `o` differ in ip or in port. -/
def addressChanged (a : mtpDcOption) (o : MTPDcOption) : Prop :=
  a.ip ≠ o.vip_address ∨ a.port ≠ o.vport

/-! ## Config loader -/

/-- Modelled from the spec: the type `MTPDconfig` of a received config is
declared outside `mtpDC.cpp`; the fields are those `configLoaded` reads. -/
structure MTPDconfig where
  vchat_size_max : Int
  vdate : Int
  vtest_mode : Bool
  vthis_dc : Int
  vdc_options : List MTPDcOption
  deriving DecidableEq, Repr

/-- Modelled from the spec: the class `MTProtoConfigLoader` is declared in
`mtpDC.h`, outside the sources; its members are those `mtpDC.cpp` uses.
`_enumDCTimer` tells whether the timer is running, and
`queuedKillCurrentSession` lists the `(request, current)` arguments of the
emissions of `killCurrentSession` posted through the queued connection to
`onKillCurrentSession` and not yet delivered, oldest first. -/
structure MTProtoConfigLoader where
  _enumCurrent : Int
  _enumRequest : Int
  _enumDCTimer : Bool
  queuedKillCurrentSession : List (Int × Int)
  deriving DecidableEq, Repr

/-- The loader object and the module state it works on: `mtpConfigLoader()`
hands out the one loader of the process. -/
abbrev LoaderState := MTProtoConfigLoader × State

/-- Constructor `MTProtoConfigLoader::MTProtoConfigLoader()`. -/
def MTProtoConfigLoader.new : MTProtoConfigLoader :=
  { _enumCurrent := 0, _enumRequest := 0, _enumDCTimer := false, queuedKillCurrentSession := [] }

/-- Method `MTProtoConfigLoader::load()`; `request` is the handle `MTP::send` returns. -/
def MTProtoConfigLoader.load (request : Int) (self : MTProtoConfigLoader) (s : State) :
    LoaderState :=
  if s.loadingConfig = true then (self, s)
  else
    ({ self with _enumDCTimer := true },
     { s with loadingConfig := true,
              effects := s.effects ++ [Effect.sendGetConfig none request, Effect.timerStart] })

/-- Slot `MTProtoConfigLoader::onKillCurrentSession(request, current)`. -/
def MTProtoConfigLoader.onKillCurrentSession (cfg : Int) (request current : Int)
    (self : MTProtoConfigLoader) (s : State) : LoaderState :=
  if request = self._enumRequest ∧ current = self._enumCurrent then
    let r1 : LoaderState :=
      if self._enumRequest ≠ 0 then
        ({ self with _enumRequest := 0 },
         { s with effects := s.effects ++ [Effect.cancel self._enumRequest] })
      else (self, s)
    if r1.1._enumCurrent ≠ 0 then
      ({ r1.1 with _enumCurrent := 0 },
       { r1.2 with effects := r1.2.effects ++ [Effect.killSession (cfg + r1.1._enumCurrent)] })
    else r1
  else (self, s)

/-- Method `MTProtoConfigLoader::done()`. -/
def MTProtoConfigLoader.done (self : MTProtoConfigLoader) (s : State) : LoaderState :=
  let self1 := { self with _enumDCTimer := false }
  let self2 :=
    if self1._enumRequest ≠ 0 ∨ self1._enumCurrent ≠ 0 then
      { self1 with queuedKillCurrentSession :=
          self1.queuedKillCurrentSession ++ [(self1._enumRequest, self1._enumCurrent)] }
    else self1
  (self2, { s with effects := s.effects ++ [Effect.timerStop, Effect.loaded] })

/-- The `for` loop of `enumDC` over the entries `rest` still to visit of the
table `options`: at the entry whose key is `cur` the result is the key of the
next entry, or the key of `options.cbegin()` when that entry is the last;
`cur` is kept when no entry has that key. -/
def MTProtoConfigLoader.enumDC.loop (options : mtpDcOptions) (cur : Int) : mtpDcOptions → Int
  | [] => cur
  | (k, _) :: rest =>
    if k = cur then
      match rest with
      | (k1, _) :: _ => k1
      | [] =>
        match options with
        | (k0, _) :: _ => k0
        | [] => cur
    else MTProtoConfigLoader.enumDC.loop options cur rest

/-- Slot `MTProtoConfigLoader::enumDC()`, run at a timeout of `_enumDCTimer`;
`request` is the handle `MTP::send` returns. -/
def MTProtoConfigLoader.enumDC (cfg : Int) (request : Int) (self : MTProtoConfigLoader)
    (s : State) : LoaderState :=
  if s.loadingConfig = false then (self, s)
  else
    let s1 :=
      if self._enumRequest ≠ 0 then
        { s with effects := s.effects ++ [Effect.cancel self._enumRequest] }
      else s
    let r2 : LoaderState :=
      if self._enumCurrent = 0 then ({ self with _enumCurrent := s1.mainDC }, s1)
      else (self, { s1 with effects := s1.effects ++ [Effect.killSession (cfg + self._enumCurrent)] })
    let cur := MTProtoConfigLoader.enumDC.loop r2.2.cDcOptions r2.1._enumCurrent r2.2.cDcOptions
    ({ r2.1 with _enumCurrent := cur, _enumRequest := request, _enumDCTimer := true },
     { r2.2 with effects := r2.2.effects ++
        [Effect.sendGetConfig (some (cfg + cur)) request, Effect.timerStart] })

/-- Function `configLoaded(result)`, the success continuation of the config request. -/
def configLoaded (data : MTPDconfig) (self : MTProtoConfigLoader) (s : State) : LoaderState :=
  let s1 := { s with loadingConfig := false }
  let s2 := mtpUpdateDcOptions data.vdc_options s1
  let s3 := { s2 with cMaxGroupCount := data.vchat_size_max }
  let s4 := { s3 with configLoadedOnce := true, effects := s3.effects ++ [Effect.writeSettings] }
  self.done s4

/-- Function `configFailed(err)`, the failure continuation of the config
request, with the value it returns. -/
def configFailed (s : State) : Bool × State :=
  (false, { s with loadingConfig := false })

/-- Event-loop delivery of the oldest posted `killCurrentSession` emission:
the slot `onKillCurrentSession` runs with the arguments captured at the
emission. Nothing happens when none is posted. -/
def deliverKillCurrentSession (cfg : Int) (r : LoaderState) : LoaderState :=
  match r.1.queuedKillCurrentSession with
  | [] => r
  | (request, current) :: rest =>
    MTProtoConfigLoader.onKillCurrentSession cfg request current
      { r.1 with queuedKillCurrentSession := rest } r.2

/-- Delivery of all posted `killCurrentSession` emissions, oldest first. -/
def deliverAllKillCurrentSession (cfg : Int) (r : LoaderState) : LoaderState :=
  (deliverKillCurrentSession cfg)^[r.1.queuedKillCurrentSession.length] r

/-- Steps of the loader: a call of `load()`, a timeout of the failover timer,
the two continuations of a config request, and the delivery of a queued
cleanup. The steps that send carry the handle `MTP::send` returns. -/
inductive LoaderStep where
  | load (request : Int)
  | tick (request : Int)
  | success (data : MTPDconfig)
  | failure
  | cleanup
  deriving DecidableEq, Repr

/-- One step of the loader. -/
def LoaderStep.apply (cfg : Int) (r : LoaderState) : LoaderStep → LoaderState
  | .load request => r.1.load request r.2
  | .tick request => r.1.enumDC cfg request r.2
  | .success data => configLoaded data r.1 r.2
  | .failure => (r.1, (configFailed r.2).2)
  | .cleanup => deliverKillCurrentSession cfg r

/-- A sequence of loader steps, left to right. -/
def runLoader (cfg : Int) (steps : List LoaderStep) (r : LoaderState) : LoaderState :=
  steps.foldl (LoaderStep.apply cfg) r

/-- Timeouts of the failover timer, one for each request handle of the list. -/
def runTicks (cfg : Int) (requests : List Int) (r : LoaderState) : LoaderState :=
  requests.foldl (fun acc request => acc.1.enumDC cfg request acc.2) r

/-- DC arguments of the config requests sent with a DC argument (those of
`enumDC`), in the order they were sent. -/
def enumTargets (effects : List Effect) : List Int :=
  effects.filterMap (fun e =>
    match e with
    | Effect.sendGetConfig (some t) _ => some t
    | _ => none)

/-- Number of config requests sent. -/
def configRequests (effects : List Effect) : Nat :=
  (effects.filter (fun e =>
    match e with
    | Effect.sendGetConfig _ _ => true
    | _ => false)).length

/-- Number of emissions of `loaded()`. -/
def loadedCount (effects : List Effect) : Nat := effects.count Effect.loaded

/-- Number of success continuations among the steps. -/
def successSteps (steps : List LoaderStep) : Nat :=
  (steps.filter (fun st =>
    match st with
    | LoaderStep.success _ => true
    | _ => false)).length

/-- The `MTP::cancel` and `MTP::killSession` calls of a log, in order. -/
def cleanupCalls (effects : List Effect) : List Effect :=
  effects.filter (fun e =>
    match e with
    | Effect.cancel _ => true
    | Effect.killSession _ => true
    | _ => false)

/-- Calls a matching cleanup makes for the tracked pair `(request, current)`. -/
def cleanupOf (cfg : Int) (request current : Int) : List Effect :=
  (if request ≠ 0 then [Effect.cancel request] else []) ++
  (if current ≠ 0 then [Effect.killSession (cfg + current)] else [])

/-- DC whose successor in the table a timeout moves to: the main DC when no
DC is being enumerated, the enumerated DC otherwise. -/
def enumStart (self : MTProtoConfigLoader) (s : State) : Int :=
  if self._enumCurrent = 0 then s.mainDC else self._enumCurrent

/-- DC the loop of `enumDC` moves to from DC `c` in the table `T`. -/
def enumNext (T : mtpDcOptions) (c : Int) : Int :=
  MTProtoConfigLoader.enumDC.loop T c T

/-- DCs that `n` consecutive timeouts move to, one after the other, when the
first of them starts from DC `c`. -/
def enumSeq (T : mtpDcOptions) (c : Int) : Nat → List Int
  | 0 => []
  | n + 1 => enumNext T c :: enumSeq T (enumNext T c) n

/-- Specification side of the enumeration: the ids of the table in ascending
cyclic order, beginning with the successor of `m` and ending with `m`. -/
def enumOrder (T : mtpDcOptions) (m : Int) : List Int :=
  (QMap.keys T).filter (fun k => decide (m < k)) ++
    (QMap.keys T).filter (fun k => decide (k < m)) ++ [m]

/-- Bookkeeping of the requests sent by `enumDC` and not cancelled: a send
with a DC argument adds its handle, a cancel removes the handle. -/
def trackEnumRequest (handles : List Int) : Effect → List Int
  | Effect.sendGetConfig (some _) request => handles ++ [request]
  | Effect.cancel request => handles.filter (fun h => decide (h ≠ request))
  | _ => handles

/-- Handles of the requests sent by `enumDC` and not cancelled, by the log. -/
def uncancelledEnum (effects : List Effect) : List Int :=
  effects.foldl trackEnumRequest []

/-- Invariant of the enumeration requests: the requests sent by `enumDC` and
not cancelled are the one tracked in `_enumRequest`, if any. -/
def EnumTracked (r : LoaderState) : Prop :=
  uncancelledEnum r.2.effects = if r.1._enumRequest = 0 then [] else [r.1._enumRequest]

instance EnumTracked.decidable (r : LoaderState) : Decidable (EnumTracked r) :=
  inferInstanceAs (Decidable
    (uncancelledEnum r.2.effects = if r.1._enumRequest = 0 then [] else [r.1._enumRequest]))

/-- Whether every timer step of the sequence gets a non-zero request handle. -/
def tickHandlesNonzero (steps : List LoaderStep) : Prop :=
  ∀ st ∈ steps, st ≠ LoaderStep.tick 0

instance tickHandlesNonzero.decidable (steps : List LoaderStep) :
    Decidable (tickHandlesNonzero steps) :=
  inferInstanceAs (Decidable (∀ st ∈ steps, st ≠ LoaderStep.tick 0))

/-! ## Lemmas on the containers -/

namespace QMap

variable {V : Type}

theorem constFind_insert (d k : Int) (v : V) (m : QMap V) :
    constFind d (insert k v m) = if d = k then some v else constFind d m := by
  induction m with
  | nil =>
    by_cases h : d = k
    · simp [insert, constFind, h]
    · have h2 : ¬ k = d := fun e => h e.symm
      simp [insert, constFind, h, h2]
  | cons p rest ih =>
    obtain ⟨k1, v1⟩ := p
    by_cases h1 : k < k1
    · by_cases h : d = k
      · simp [insert, constFind, h1, h]
      · have h2 : ¬ k = d := fun e => h e.symm
        simp [insert, constFind, h1, h, h2]
    · by_cases h3 : k = k1
      · subst h3
        by_cases h : d = k
        · simp [insert, constFind, h]
        · have h2 : ¬ k = d := fun e => h e.symm
          simp [insert, constFind, h, h2]
      · simp only [insert, h1, h3, if_false, constFind, ih]
        by_cases h : d = k
        · subst h
          have h4 : ¬ k1 = d := fun e => h3 e.symm
          simp [h4]
        · simp [h]

theorem constFind_remove (d k : Int) (m : QMap V) :
    constFind d (remove k m) = if d = k then none else constFind d m := by
  induction m with
  | nil => simp [remove, constFind]
  | cons p rest ih =>
    obtain ⟨k1, v1⟩ := p
    by_cases h1 : k1 = k
    · simp only [remove, h1, if_true, ih, constFind]
      by_cases h : d = k
      · simp [h]
      · have h2 : ¬ k = d := fun e => h e.symm
        simp [h, h2]
    · simp only [remove, h1, if_false, constFind, ih]
      by_cases h : d = k
      · subst h
        simp [h1]
      · simp [h]

theorem remove_of_constFind_none (k : Int) (m : QMap V) (h : constFind k m = none) :
    remove k m = m := by
  induction m with
  | nil => rfl
  | cons p rest ih =>
    obtain ⟨k1, v1⟩ := p
    by_cases h1 : k1 = k
    · simp [constFind, h1] at h
    · simp only [constFind, h1, if_false] at h
      simp [remove, h1, ih h]

theorem WF_nil : WF ([] : QMap V) := List.Pairwise.nil

theorem mem_remove {k : Int} {m : QMap V} {p : Int × V} (h : p ∈ remove k m) : p ∈ m := by
  induction m with
  | nil => simp [remove] at h
  | cons q rest ih =>
    obtain ⟨k1, v1⟩ := q
    by_cases h1 : k1 = k
    · simp only [remove, h1, if_true] at h
      exact List.mem_cons_of_mem _ (ih h)
    · simp only [remove, h1, if_false] at h
      rcases List.mem_cons.1 h with h | h
      · simp [h]
      · exact List.mem_cons_of_mem _ (ih h)

theorem WF_remove (k : Int) (m : QMap V) (h : WF m) : WF (remove k m) := by
  induction m with
  | nil => simpa [remove] using h
  | cons q rest ih =>
    obtain ⟨k1, v1⟩ := q
    unfold WF at h ih ⊢
    rw [List.pairwise_cons] at h
    by_cases h1 : k1 = k
    · simp only [remove, h1, if_true]
      exact ih h.2
    · simp only [remove, h1, if_false]
      exact List.Pairwise.cons (fun p hp => h.1 p (mem_remove hp)) (ih h.2)

theorem mem_insert {k : Int} {v : V} {m : QMap V} {p : Int × V} (h : p ∈ insert k v m) :
    p = (k, v) ∨ p ∈ m := by
  induction m with
  | nil => simpa [insert] using h
  | cons q rest ih =>
    obtain ⟨k1, v1⟩ := q
    by_cases h1 : k < k1
    · simp [insert, h1] at h
      rcases h with h | h | h
      · exact Or.inl h
      · exact Or.inr (by simp [h])
      · exact Or.inr (List.mem_cons_of_mem _ h)
    · by_cases h3 : k = k1
      · simp [insert, h3] at h
        rcases h with h | h
        · exact Or.inl (by rw [h, h3])
        · exact Or.inr (List.mem_cons_of_mem _ h)
      · simp [insert, h1, h3] at h
        rcases h with h | h
        · exact Or.inr (by simp [h])
        · rcases ih h with h | h
          · exact Or.inl h
          · exact Or.inr (List.mem_cons_of_mem _ h)

theorem WF_insert (k : Int) (v : V) (m : QMap V) (h : WF m) : WF (insert k v m) := by
  induction m with
  | nil => simp [insert, WF]
  | cons q rest ih =>
    obtain ⟨k1, v1⟩ := q
    unfold WF at h ih ⊢
    rw [List.pairwise_cons] at h
    by_cases h1 : k < k1
    · simp only [insert, h1, if_true]
      refine List.Pairwise.cons ?_ (List.Pairwise.cons h.1 h.2)
      intro p hp
      rcases List.mem_cons.1 hp with hp | hp
      · simpa [hp] using h1
      · exact lt_trans h1 (h.1 p hp)
    · by_cases h3 : k = k1
      · subst h3
        simp only [insert, h1, if_false, if_true]
        exact List.Pairwise.cons (fun p hp => h.1 p hp) h.2
      · simp only [insert, h1, h3, if_false]
        refine List.Pairwise.cons ?_ (ih h.2)
        intro p hp
        rcases mem_insert hp with hp | hp
        · rw [hp]
          exact lt_of_le_of_ne (not_lt.1 h1) (fun e => h3 e.symm)
        · exact h.1 p hp

theorem constFind_of_mem {m : QMap V} (h : WF m) {p : Int × V} (hp : p ∈ m) :
    constFind p.1 m = some p.2 := by
  induction m with
  | nil => simp at hp
  | cons q rest ih =>
    obtain ⟨k1, v1⟩ := q
    unfold WF at h ih
    rw [List.pairwise_cons] at h
    rcases List.mem_cons.1 hp with hp | hp
    · simp [hp, constFind]
    · have hlt : k1 < p.1 := h.1 p hp
      have hne : ¬ k1 = p.1 := ne_of_lt hlt
      simp [constFind, hne, ih h.2 hp]

theorem mem_keys_iff (d : Int) (m : QMap V) : d ∈ keys m ↔ (constFind d m).isSome = true := by
  induction m with
  | nil => simp [keys, constFind]
  | cons q rest ih =>
    obtain ⟨k1, v1⟩ := q
    unfold keys at ih ⊢
    by_cases h : k1 = d
    · simp [constFind, h]
    · have h2 : ¬ d = k1 := fun e => h e.symm
      simp [constFind, h, h2, ih]

theorem keys_pairwise {m : QMap V} (h : WF m) : (keys m).Pairwise (fun a b => a < b) := by
  unfold keys
  rw [List.pairwise_map]
  exact h

theorem values_eq {m : QMap V} (h : WF m) :
    (values m).map some = (keys m).map (fun d => constFind d m) := by
  unfold values keys
  rw [List.map_map, List.map_map]
  apply List.map_congr_left
  intro p hp
  simp [constFind_of_mem h hp]

theorem insert_of_constFind {m : QMap V} (h : WF m) {k : Int} {v : V}
    (hk : constFind k m = some v) : insert k v m = m := by
  induction m with
  | nil => simp [constFind] at hk
  | cons q rest ih =>
    obtain ⟨k1, v1⟩ := q
    unfold WF at h ih
    rw [List.pairwise_cons] at h
    by_cases h3 : k1 = k
    · subst h3
      simp [constFind] at hk
      simp [insert, hk]
    · simp [constFind, h3] at hk
      have hk1 : k1 < k := by
        rcases lt_trichotomy k1 k with hlt | heq | hgt
        · exact hlt
        · exact absurd heq h3
        · exfalso
          have hmem : k ∈ keys rest := (mem_keys_iff k rest).2 (by simp [hk])
          obtain ⟨p, hp, hpk⟩ := List.mem_map.1 hmem
          have := h.1 p hp
          rw [hpk] at this
          exact lt_asymm this hgt
      have h1 : ¬ k < k1 := not_lt.2 (le_of_lt hk1)
      have h4 : ¬ k = k1 := fun e => h3 e.symm
      simp [insert, h1, h4, ih h.2 hk]

end QMap

/-! ## Lemmas on the key operations -/

theorem constFind_writeKeyIndex (d id : Int) (key : mtpAuthKeyPtr) (idx : QMap mtpAuthKey) :
    QMap.constFind d (writeKeyIndex id key idx) = if d = id then key else QMap.constFind d idx := by
  cases key with
  | none => simp [writeKeyIndex, QMap.constFind_remove]
  | some k => simp [writeKeyIndex, QMap.constFind_insert]

theorem WF_writeKeyIndex (id : Int) (key : mtpAuthKeyPtr) (idx : QMap mtpAuthKey)
    (h : QMap.WF idx) : QMap.WF (writeKeyIndex id key idx) := by
  cases key with
  | none => exact QMap.WF_remove _ _ h
  | some k => exact QMap.WF_insert _ _ _ h

theorem lastKey_concat (d : Int) (ops : List KeyOp) (op : KeyOp) :
    lastKey d (ops ++ [op]) = if d = op.id then op.key else lastKey d ops := by
  unfold lastKey lastOp
  by_cases h : op.id = d
  · simp [List.filter_append, List.filter_cons, h, List.getLast?_append]
  · have h2 : ¬ d = op.id := fun e => h e.symm
    simp [List.filter_append, List.filter_cons, h, h2]

theorem runKeyOps_concat (ops : List KeyOp) (op : KeyOp) (s : State) :
    runKeyOps (ops ++ [op]) s = (runKeyOps ops s).bind (fun st => op.apply st) := by
  unfold runKeyOps
  rw [List.foldlM_append]
  cases h : List.foldlM (fun st o => KeyOp.apply st o) s ops with
  | none => rfl
  | some st =>
    show (List.foldlM (fun st o => KeyOp.apply st o) st [op]) = op.apply st
    simp [List.foldlM]

theorem KeysInv_create (ops : List KeyOp) (s : State) (id : Int) (key : mtpAuthKeyPtr)
    (h : KeysInv ops s) : KeysInv (ops ++ [KeyOp.create id key]) (mtpSetKey id key s) := by
  obtain ⟨hwf, hidx, hreg⟩ := h
  refine ⟨?_, ?_, ?_⟩
  · exact WF_writeKeyIndex _ _ _ hwf
  · intro d
    show QMap.constFind d (writeKeyIndex id key s._keysMapForWrite) = _
    rw [constFind_writeKeyIndex, lastKey_concat, hidx]
    rfl
  · intro d dc hd
    have hd2 : QMap.constFind d (QMap.insert id (MTProtoDC.new id key s).1 s.gDCs) = some dc := hd
    show dc._id = d ∧ QMap.constFind d (writeKeyIndex id key s._keysMapForWrite) = dc._key
    rw [QMap.constFind_insert] at hd2
    rw [constFind_writeKeyIndex]
    by_cases e : d = id
    · simp only [e, if_true, Option.some.injEq] at hd2
      rw [← hd2, e]
      exact ⟨rfl, by simp [MTProtoDC.new]⟩
    · simp only [e, if_false] at hd2
      simp only [e, if_false]
      exact hreg d dc hd2

theorem KeysInv_onRecord (ops : List KeyOp) (op : KeyOp) (s s1 : State)
    (f : MTProtoDC → State → MTProtoDC × State)
    (hid : ∀ dc st, (f dc st).1._id = dc._id)
    (hkey : ∀ dc st, (f dc st).1._key = op.key)
    (hreg : ∀ dc st, (f dc st).2.gDCs = st.gDCs)
    (hidx : ∀ dc st, (f dc st).2._keysMapForWrite
      = writeKeyIndex dc._id op.key st._keysMapForWrite)
    (h : KeysInv ops s) (hrun : onRecord op.id f s = some s1) :
    KeysInv (ops ++ [op]) s1 := by
  obtain ⟨hwf, hlast, hown⟩ := h
  unfold onRecord at hrun
  cases hfind : QMap.constFind op.id s.gDCs with
  | none => simp [hfind] at hrun
  | some dc =>
    simp only [hfind, Option.some.injEq] at hrun
    have hdc : dc._id = op.id := (hown _ _ hfind).1
    subst hrun
    refine ⟨?_, ?_, ?_⟩
    · show QMap.WF (f dc s).2._keysMapForWrite
      rw [hidx]
      exact WF_writeKeyIndex _ _ _ hwf
    · intro d
      show QMap.constFind d (f dc s).2._keysMapForWrite = _
      rw [hidx, constFind_writeKeyIndex, lastKey_concat, hlast, hdc]
    · intro d rec hd
      have hd2 : QMap.constFind d (QMap.insert op.id (f dc s).1 (f dc s).2.gDCs) = some rec := hd
      show rec._id = d ∧ QMap.constFind d (f dc s).2._keysMapForWrite = rec._key
      rw [QMap.constFind_insert, hreg] at hd2
      rw [hidx, constFind_writeKeyIndex, hdc]
      by_cases e : d = op.id
      · simp only [e, if_true, Option.some.injEq] at hd2
        rw [← hd2, hid, hdc, e, hkey]
        exact ⟨rfl, by simp⟩
      · simp only [e, if_false] at hd2
        simp only [e, if_false]
        exact hown d rec hd2

theorem writeKeyIndex_none_twice (id : Int) (idx : QMap mtpAuthKey) :
    QMap.remove id (writeKeyIndex id none idx) = writeKeyIndex id none idx := by
  apply QMap.remove_of_constFind_none
  simp [constFind_writeKeyIndex]

theorem KeysInv_apply (ops : List KeyOp) (op : KeyOp) (s s1 : State)
    (h : KeysInv ops s) (hrun : op.apply s = some s1) : KeysInv (ops ++ [op]) s1 := by
  cases op with
  | create id key =>
    simp only [KeyOp.apply, Option.some.injEq] at hrun
    subst hrun
    exact KeysInv_create ops s id key h
  | setKey id key =>
    exact KeysInv_onRecord ops (KeyOp.setKey id key) s s1 _
      (fun _ _ => rfl) (fun _ _ => rfl) (fun _ _ => rfl) (fun _ _ => rfl) h hrun
  | destroyKey id =>
    refine KeysInv_onRecord ops (KeyOp.destroyKey id) s s1 _
      (fun _ _ => rfl) (fun _ _ => rfl) (fun _ _ => rfl) (fun dc st => ?_) h hrun
    exact writeKeyIndex_none_twice dc._id st._keysMapForWrite

theorem runKeyOps_cons (op : KeyOp) (rest : List KeyOp) (s : State) :
    runKeyOps (op :: rest) s = (op.apply s).bind (runKeyOps rest) := by
  unfold runKeyOps
  rw [List.foldlM_cons]
  rfl

theorem onRecord_registered (d : Int) (f : MTProtoDC → State → MTProtoDC × State)
    (hreg : ∀ dc st, (f dc st).2.gDCs = st.gDCs) (s : State) (reg : List Int)
    (hd : d ∈ reg) (h : ∀ x ∈ reg, (QMap.constFind x s.gDCs).isSome = true) :
    ∃ s1, onRecord d f s = some s1 ∧ ∀ x ∈ reg, (QMap.constFind x s1.gDCs).isSome = true := by
  unfold onRecord
  cases hfind : QMap.constFind d s.gDCs with
  | none =>
    have := h d hd
    simp [hfind] at this
  | some dc =>
    refine ⟨_, rfl, ?_⟩
    intro x hx
    show (QMap.constFind x (QMap.insert d (f dc s).1 (f dc s).2.gDCs)).isSome = true
    rw [QMap.constFind_insert, hreg]
    by_cases e : x = d
    · simp [e]
    · simp only [e, if_false]
      exact h x hx

theorem runKeyOps_succeeds (ops : List KeyOp) (s : State) (reg : List Int)
    (h : ∀ x ∈ reg, (QMap.constFind x s.gDCs).isSome = true)
    (hadd : addressesRegistered ops reg = true) : ∃ s1, runKeyOps ops s = some s1 := by
  induction ops generalizing s reg with
  | nil => exact ⟨s, rfl⟩
  | cons op rest ih =>
    rw [runKeyOps_cons]
    cases op with
    | create id key =>
      simp only [addressesRegistered] at hadd
      apply ih (mtpSetKey id key s) (id :: reg) _ hadd
      intro x hx
      show (QMap.constFind x (QMap.insert id (MTProtoDC.new id key s).1 s.gDCs)).isSome = true
      rw [QMap.constFind_insert]
      by_cases e : x = id
      · simp [e]
      · simp only [e, if_false]
        rcases List.mem_cons.1 hx with hx | hx
        · exact absurd hx e
        · exact h x hx
    | setKey id key =>
      simp only [addressesRegistered, Bool.and_eq_true, decide_eq_true_eq] at hadd
      obtain ⟨s1, h1, h2⟩ := onRecord_registered id (fun dc st => dc.setKey key st)
        (fun _ _ => rfl) s reg hadd.1 h
      simp only [KeyOp.apply, h1, Option.bind]
      exact ih s1 reg h2 hadd.2
    | destroyKey id =>
      simp only [addressesRegistered, Bool.and_eq_true, decide_eq_true_eq] at hadd
      obtain ⟨s1, h1, h2⟩ := onRecord_registered id (fun dc st => dc.destroyKey st)
        (fun _ _ => rfl) s reg hadd.1 h
      simp only [KeyOp.apply, h1, Option.bind]
      exact ih s1 reg h2 hadd.2

theorem KeysInv_run (ops : List KeyOp) (s0 s : State)
    (hreg : s0.gDCs = []) (hidx : s0._keysMapForWrite = [])
    (hrun : runKeyOps ops s0 = some s) : KeysInv ops s := by
  induction ops using List.reverseRecOn generalizing s with
  | nil =>
    simp only [runKeyOps, List.foldlM, pure, Option.some.injEq] at hrun
    subst hrun
    refine ⟨?_, ?_, ?_⟩
    · rw [hidx]; exact QMap.WF_nil
    · intro d; rw [hidx]; rfl
    · intro d dc hd
      rw [hreg] at hd
      simp [QMap.constFind] at hd
  | append_singleton ops op ih =>
    rw [runKeyOps_concat] at hrun
    cases hmid : runKeyOps ops s0 with
    | none => simp [hmid] at hrun
    | some st =>
      simp only [hmid, Option.bind] at hrun
      exact KeysInv_apply ops op st s (ih st hmid) hrun

/-! ## Lemmas on the DC-options loop -/

theorem QSet.mem_insert_iff (y x : Int) (s : QSet) : y ∈ QSet.insert x s ↔ y = x ∨ y ∈ s := by
  unfold QSet.insert
  by_cases h : x ∈ s
  · simp only [h, if_true]
    constructor
    · exact Or.inr
    · rintro (e | e)
      · rw [e]; exact h
      · exact e
  · simp only [h, if_false, List.mem_append, List.mem_singleton]
    exact Or.comm

theorem QSet.insert_nodup (x : Int) (s : QSet) (h : s.Nodup) : (QSet.insert x s).Nodup := by
  unfold QSet.insert
  by_cases hx : x ∈ s
  · simpa [hx] using h
  · simp only [hx, if_false]
    rw [List.nodup_append]
    refine ⟨h, List.nodup_singleton x, ?_⟩
    intro a ha hb
    rw [List.mem_singleton] at hb
    exact hx (hb ▸ ha)

theorem firstOption_cons (d : Int) (o : MTPDcOption) (rest : List MTPDcOption) :
    firstOption d (o :: rest) = if o.vid = d then some o else firstOption d rest := by
  unfold firstOption
  by_cases h : o.vid = d
  · simp [List.find?_cons, h]
  · simp [List.find?_cons, h]

theorem loop_cons_new (o : MTPDcOption) (rest : List MTPDcOption) (already restart : QSet)
    (opts : mtpDcOptions) (h : o.vid ∉ already) :
    mtpUpdateDcOptions.loop (o :: rest) already restart opts =
      mtpUpdateDcOptions.loop rest (QSet.insert o.vid already)
        (match QMap.constFind o.vid opts with
          | some a =>
            if a.ip ≠ o.vip_address ∨ a.port ≠ o.vport then QSet.insert o.vid restart
            else restart
          | none => restart)
        (QMap.insert o.vid o.toStored opts) := by
  simp [mtpUpdateDcOptions.loop, QSet.contains, h, MTPDcOption.toStored]

theorem loop_cons_seen (o : MTPDcOption) (rest : List MTPDcOption) (already restart : QSet)
    (opts : mtpDcOptions) (h : o.vid ∈ already) :
    mtpUpdateDcOptions.loop (o :: rest) already restart opts =
      mtpUpdateDcOptions.loop rest already restart opts := by
  simp [mtpUpdateDcOptions.loop, QSet.contains, h]

theorem loop_restart_mem (L : List MTPDcOption) (already restart : QSet) (opts : mtpDcOptions)
    (d : Int) :
    d ∈ (mtpUpdateDcOptions.loop L already restart opts).2.1 ↔
      d ∈ restart ∨ (d ∉ already ∧ ∃ a o, QMap.constFind d opts = some a ∧
        firstOption d L = some o ∧ addressChanged a o) := by
  induction L generalizing already restart opts with
  | nil => simp [mtpUpdateDcOptions.loop, firstOption]
  | cons o rest ih =>
    by_cases hseen : o.vid ∈ already
    · rw [loop_cons_seen o rest already restart opts hseen, ih, firstOption_cons]
      by_cases hd : o.vid = d
      · have hda : d ∈ already := hd ▸ hseen
        simp [hda]
      · simp [hd]
    · rw [loop_cons_new o rest already restart opts hseen, ih, firstOption_cons,
        QSet.mem_insert_iff, QMap.constFind_insert]
      by_cases hd : d = o.vid
      · subst hd
        cases hfind : QMap.constFind o.vid opts with
        | none => simp [hseen]
        | some a =>
          by_cases hch : a.ip ≠ o.vip_address ∨ a.port ≠ o.vport
          · have hch2 : addressChanged a o := hch
            simp [hch, QSet.mem_insert_iff, hseen, hch2]
          · simp only [hch, if_false, true_or, not_true_eq_false, false_and, or_false, if_true]
            constructor
            · exact Or.inl
            · rintro (h | ⟨_, a1, o1, h1, h2, h3⟩)
              · exact h
              · simp only [Option.some.injEq] at h1 h2
                subst h1 h2
                exact absurd h3 hch
      · have hd2 : ¬ o.vid = d := fun e => hd e.symm
        have hr : (d ∈ (match QMap.constFind o.vid opts with
            | some a =>
              if a.ip ≠ o.vip_address ∨ a.port ≠ o.vport then QSet.insert o.vid restart
              else restart
            | none => restart)) ↔ d ∈ restart := by
          cases QMap.constFind o.vid opts with
          | none => rfl
          | some a =>
            by_cases hch : a.ip ≠ o.vip_address ∨ a.port ≠ o.vport
            · simp only [hch, if_true, QSet.mem_insert_iff, hd, false_or]
            · simp only [hch, if_false]
        rw [hr]
        simp [hd, hd2]

theorem loop_restart_nodup (L : List MTPDcOption) (already restart : QSet) (opts : mtpDcOptions)
    (h : restart.Nodup) : (mtpUpdateDcOptions.loop L already restart opts).2.1.Nodup := by
  induction L generalizing already restart opts with
  | nil => simpa [mtpUpdateDcOptions.loop] using h
  | cons o rest ih =>
    by_cases hseen : o.vid ∈ already
    · rw [loop_cons_seen o rest already restart opts hseen]
      exact ih already restart opts h
    · rw [loop_cons_new o rest already restart opts hseen]
      apply ih
      cases QMap.constFind o.vid opts with
      | none => exact h
      | some a =>
        by_cases hch : a.ip ≠ o.vip_address ∨ a.port ≠ o.vport
        · simp only [hch, if_true]
          exact QSet.insert_nodup _ _ h
        · simp only [hch, if_false]
          exact h

theorem loop_table (L : List MTPDcOption) (already restart : QSet) (opts : mtpDcOptions)
    (d : Int) :
    QMap.constFind d (mtpUpdateDcOptions.loop L already restart opts).2.2 =
      if d ∈ already then QMap.constFind d opts
      else match firstOption d L with
        | some o => some o.toStored
        | none => QMap.constFind d opts := by
  induction L generalizing already restart opts with
  | nil => simp [mtpUpdateDcOptions.loop, firstOption]
  | cons o rest ih =>
    by_cases hseen : o.vid ∈ already
    · rw [loop_cons_seen o rest already restart opts hseen, ih, firstOption_cons]
      by_cases hda : d ∈ already
      · simp [hda]
      · have hd : ¬ o.vid = d := fun e => hda (e ▸ hseen)
        simp [hda, hd]
    · rw [loop_cons_new o rest already restart opts hseen, ih, firstOption_cons,
        QMap.constFind_insert]
      by_cases hd : d = o.vid
      · have h1 : d ∈ QSet.insert o.vid already := (QSet.mem_insert_iff _ _ _).2 (Or.inl hd)
        have h2 : d ∉ already := hd ▸ hseen
        rw [if_pos h1, if_pos hd, if_neg h2, if_pos hd.symm]
      · have hd2 : ¬ o.vid = d := fun e => hd e.symm
        rw [if_neg hd, if_neg hd2]
        by_cases hda : d ∈ already
        · have h1 : d ∈ QSet.insert o.vid already := (QSet.mem_insert_iff _ _ _).2 (Or.inr hda)
          rw [if_pos h1, if_pos hda]
        · have h1 : d ∉ QSet.insert o.vid already := fun e =>
            ((QSet.mem_insert_iff _ _ _).1 e).elim hd hda
          rw [if_neg h1, if_neg hda]

theorem table_after (L : List MTPDcOption) (s : State) (d : Int) :
    QMap.constFind d (mtpUpdateDcOptions L s).cDcOptions =
      match firstOption d L with
      | some o => some o.toStored
      | none => QMap.constFind d s.cDcOptions := by
  show QMap.constFind d (mtpUpdateDcOptions.loop L [] [] s.cDcOptions).2.2 = _
  rw [loop_table]
  simp

theorem loop_dropLaterDuplicates (L : List MTPDcOption) (seen : List Int)
    (already restart : QSet) (opts : mtpDcOptions) (h : ∀ x, x ∈ seen ↔ x ∈ already) :
    mtpUpdateDcOptions.loop (dropLaterDuplicates L seen) already restart opts =
      mtpUpdateDcOptions.loop L already restart opts := by
  induction L generalizing seen already restart opts with
  | nil => rfl
  | cons o rest ih =>
    by_cases hseen : o.vid ∈ already
    · have hs : o.vid ∈ seen := (h _).2 hseen
      rw [loop_cons_seen o rest already restart opts hseen]
      simp only [dropLaterDuplicates, hs, if_true]
      exact ih seen already restart opts h
    · have hs : o.vid ∉ seen := fun e => hseen ((h _).1 e)
      simp only [dropLaterDuplicates, hs, if_false]
      rw [loop_cons_new o rest already restart opts hseen,
        loop_cons_new o _ already restart opts hseen]
      apply ih
      intro x
      rw [QSet.mem_insert_iff, List.mem_cons, h]

theorem loop_fixed (L : List MTPDcOption) (already restart : QSet) (opts : mtpDcOptions)
    (hwf : QMap.WF opts)
    (h : ∀ d o, d ∉ already → firstOption d L = some o →
      QMap.constFind d opts = some o.toStored) :
    (mtpUpdateDcOptions.loop L already restart opts).2 = (restart, opts) := by
  induction L generalizing already with
  | nil => rfl
  | cons o rest ih =>
    by_cases hseen : o.vid ∈ already
    · rw [loop_cons_seen o rest already restart opts hseen]
      apply ih
      intro d o1 hd hf
      apply h d o1 hd
      rw [firstOption_cons]
      have hne : ¬ o.vid = d := fun e => hd (e ▸ hseen)
      simp [hne, hf]
    · have hfind : QMap.constFind o.vid opts = some o.toStored := by
        apply h _ _ hseen
        rw [firstOption_cons]
        simp
      rw [loop_cons_new o rest already restart opts hseen, hfind,
        QMap.insert_of_constFind hwf hfind]
      have hsame : ¬ (o.toStored.ip ≠ o.vip_address ∨ o.toStored.port ≠ o.vport) := by
        simp [MTPDcOption.toStored]
      simp only [hsame, if_false]
      apply ih
      intro d o1 hd hf
      rw [QSet.mem_insert_iff] at hd
      have hne : ¬ o.vid = d := fun e => hd (Or.inl e.symm)
      apply h d o1 (fun e => hd (Or.inr e))
      rw [firstOption_cons]
      simp [hne, hf]

theorem loop_WF (L : List MTPDcOption) (already restart : QSet) (opts : mtpDcOptions)
    (hwf : QMap.WF opts) : QMap.WF (mtpUpdateDcOptions.loop L already restart opts).2.2 := by
  induction L generalizing already restart opts with
  | nil => exact hwf
  | cons o rest ih =>
    by_cases hseen : o.vid ∈ already
    · rw [loop_cons_seen o rest already restart opts hseen]
      exact ih already restart opts hwf
    · rw [loop_cons_new o rest already restart opts hseen]
      exact ih _ _ _ (QMap.WF_insert _ _ _ hwf)

/-! ## Lemmas on posted notifications -/

theorem writes_authKeyWrite (self : MTProtoDC) (s : State) :
    writes (self.authKeyWrite s) = writes s + (if self._key.isSome then 1 else 0) := by
  unfold MTProtoDC.authKeyWrite writes
  cases self._key with
  | none => simp
  | some k => simp [List.count_append]

theorem writes_deliver (self : MTProtoDC) (s : State) (h : 0 < self.queuedAuthKeyCreated) :
    writes (self.deliverAuthKeyCreated s).2 = writes s + (if self._key.isSome then 1 else 0) := by
  have h0 : ¬ self.queuedAuthKeyCreated = 0 := Nat.pos_iff_ne_zero.1 h
  unfold MTProtoDC.deliverAuthKeyCreated
  rw [if_neg h0]
  exact writes_authKeyWrite self s

theorem writes_step (r : MTProtoDC × State) (op : RecordOp) :
    writes (op.apply r).2 + (op.apply r).1.queuedAuthKeyCreated
      ≤ writes r.2 + r.1.queuedAuthKeyCreated + keyCalls [op] := by
  cases op with
  | setKey key =>
    show writes r.2 + (r.1.queuedAuthKeyCreated + 1) ≤ _
    simp [keyCalls]
    omega
  | destroyKey =>
    show writes r.2 + (r.1.queuedAuthKeyCreated + 1) ≤ _
    simp [keyCalls]
    omega
  | deliver =>
    by_cases h0 : r.1.queuedAuthKeyCreated = 0
    · simp [RecordOp.apply, MTProtoDC.deliverAuthKeyCreated, h0]
    · have hpos : 0 < r.1.queuedAuthKeyCreated := Nat.pos_of_ne_zero h0
      have hw := writes_deliver r.1 r.2 hpos
      have hq : (r.1.deliverAuthKeyCreated r.2).1.queuedAuthKeyCreated
          = r.1.queuedAuthKeyCreated - 1 := by
        simp [MTProtoDC.deliverAuthKeyCreated, h0]
      show writes (r.1.deliverAuthKeyCreated r.2).2
        + (r.1.deliverAuthKeyCreated r.2).1.queuedAuthKeyCreated ≤ _
      rw [hw, hq]
      split <;> omega

theorem keyCalls_cons (op : RecordOp) (ops : List RecordOp) :
    keyCalls (op :: ops) = keyCalls [op] + keyCalls ops := by
  unfold keyCalls
  by_cases h : op = RecordOp.deliver
  · simp [List.filter_cons, h]
  · simp [List.filter_cons, h]
    omega

theorem writes_run (ops : List RecordOp) (r : MTProtoDC × State) :
    writes (runRecordOps ops r).2 + (runRecordOps ops r).1.queuedAuthKeyCreated
      ≤ writes r.2 + r.1.queuedAuthKeyCreated + keyCalls ops := by
  induction ops generalizing r with
  | nil => simp [runRecordOps, keyCalls]
  | cons op rest ih =>
    have h1 := ih (op.apply r)
    have h2 := writes_step r op
    rw [keyCalls_cons]
    show writes (runRecordOps rest (op.apply r)).2
      + (runRecordOps rest (op.apply r)).1.queuedAuthKeyCreated ≤ _
    omega

theorem deliver_replicate (n : Nat) (self : MTProtoDC) (s : State)
    (h : n ≤ self.queuedAuthKeyCreated) :
    (runRecordOps (List.replicate n RecordOp.deliver) (self, s)).1._key = self._key ∧
    (runRecordOps (List.replicate n RecordOp.deliver) (self, s)).1.queuedAuthKeyCreated
      = self.queuedAuthKeyCreated - n ∧
    writes (runRecordOps (List.replicate n RecordOp.deliver) (self, s)).2
      = writes s + n * (if self._key.isSome then 1 else 0) := by
  induction n generalizing self s with
  | zero => simp [runRecordOps]
  | succ n ih =>
    have h0 : ¬ self.queuedAuthKeyCreated = 0 := by omega
    have hstep : self.deliverAuthKeyCreated s
        = ({ self with queuedAuthKeyCreated := self.queuedAuthKeyCreated - 1 },
           self.authKeyWrite s) := by
      simp [MTProtoDC.deliverAuthKeyCreated, h0]
    show (runRecordOps (List.replicate n RecordOp.deliver) (self.deliverAuthKeyCreated s)).1._key
        = self._key ∧
      (runRecordOps (List.replicate n RecordOp.deliver)
        (self.deliverAuthKeyCreated s)).1.queuedAuthKeyCreated = self.queuedAuthKeyCreated - (n + 1) ∧
      writes (runRecordOps (List.replicate n RecordOp.deliver) (self.deliverAuthKeyCreated s)).2
        = writes s + (n + 1) * (if self._key.isSome then 1 else 0)
    rw [hstep]
    obtain ⟨h1, h2, h3⟩ := ih { self with queuedAuthKeyCreated := self.queuedAuthKeyCreated - 1 }
      (self.authKeyWrite s) (by show n ≤ self.queuedAuthKeyCreated - 1; omega)
    refine ⟨h1, ?_, ?_⟩
    · rw [h2]
      show self.queuedAuthKeyCreated - 1 - n = _
      omega
    · rw [h3, writes_authKeyWrite, Nat.add_mul, Nat.one_mul]
      show _ + n * (if self._key.isSome then 1 else 0) = _
      omega

theorem own_delivery (r0 : MTProtoDC × State) (q : Nat) (h : r0.1.queuedAuthKeyCreated = q + 1) :
    writes (runRecordOps (List.replicate (q + 1) RecordOp.deliver) r0).2
      = writes (runRecordOps (List.replicate q RecordOp.deliver) r0).2
        + (if r0.1._key.isSome then 1 else 0) := by
  obtain ⟨self, s⟩ := r0
  have hq : self.queuedAuthKeyCreated = q + 1 := h
  show writes (runRecordOps (List.replicate (q + 1) RecordOp.deliver) (self, s)).2
    = writes (runRecordOps (List.replicate q RecordOp.deliver) (self, s)).2
      + (if self._key.isSome then 1 else 0)
  rw [(deliver_replicate (q + 1) self s (by omega)).2.2,
    (deliver_replicate q self s (by omega)).2.2, Nat.add_mul, Nat.one_mul]
  omega

/-! ## Theorems -/

/-- C1: starting from an empty registry and an empty key index, every
sequence of record creations, `setKey` calls and `destroyKey` calls addressed
to registered records runs through, and afterwards `mtpGetKeys()` returns, in
ascending order of DC id, exactly one key for each DC id whose most recent
operation was a creation or `setKey` with a non-empty key, namely that key,
and nothing for any other id. -/
theorem mtpGetKeys_after_key_operations (ops : List KeyOp) (s0 : State)
    (hreg : s0.gDCs = []) (hidx : s0._keysMapForWrite = [])
    (hadd : addressesRegistered ops [] = true) :
    ∃ s, runKeyOps ops s0 = some s ∧
      ∃ ids : List Int, ids.Pairwise (fun a b => a < b) ∧
        (∀ d, d ∈ ids ↔ ∃ k, lastKey d ops = some k) ∧
        (mtpGetKeys s).map some = ids.map (fun d => lastKey d ops) := by
  obtain ⟨s, hrun⟩ := runKeyOps_succeeds ops s0 [] (fun x hx => by simp at hx) hadd
  obtain ⟨hwf, hlast, _⟩ := KeysInv_run ops s0 s hreg hidx hrun
  refine ⟨s, hrun, QMap.keys s._keysMapForWrite, QMap.keys_pairwise hwf, ?_, ?_⟩
  · intro d
    rw [QMap.mem_keys_iff, hlast, Option.isSome_iff_exists]
  · unfold mtpGetKeys
    rw [QMap.values_eq hwf]
    exact List.map_congr_left (fun d _ => hlast d)

/-- C1 at a concrete run: DC 1 created with key 7 and then destroyed, DC 3
created empty and then given key 9, DC 2 created with key 5; `mtpGetKeys()`
then returns key 5 and key 9. -/
theorem mtpGetKeys_after_key_operations_witness :
    (runKeyOps [KeyOp.create 1 (some ⟨7⟩), KeyOp.create 3 none, KeyOp.setKey 3 (some ⟨9⟩),
        KeyOp.destroyKey 1, KeyOp.create 2 (some ⟨5⟩)] State.initial).map mtpGetKeys
      = some [⟨5⟩, ⟨9⟩] ∧
    ∃ s, runKeyOps [KeyOp.create 1 (some ⟨7⟩), KeyOp.create 3 none, KeyOp.setKey 3 (some ⟨9⟩),
        KeyOp.destroyKey 1, KeyOp.create 2 (some ⟨5⟩)] State.initial = some s ∧
      ∃ ids : List Int, ids.Pairwise (fun a b => a < b) ∧
        (∀ d, d ∈ ids ↔ ∃ k, lastKey d [KeyOp.create 1 (some ⟨7⟩), KeyOp.create 3 none,
          KeyOp.setKey 3 (some ⟨9⟩), KeyOp.destroyKey 1, KeyOp.create 2 (some ⟨5⟩)] = some k) ∧
        (mtpGetKeys s).map some
          = ids.map (fun d => lastKey d [KeyOp.create 1 (some ⟨7⟩), KeyOp.create 3 none,
              KeyOp.setKey 3 (some ⟨9⟩), KeyOp.destroyKey 1, KeyOp.create 2 (some ⟨5⟩)]) :=
  ⟨by decide, mtpGetKeys_after_key_operations _ State.initial rfl rfl (by decide)⟩

/-- C2: `mtpSetDC(dc, firstOnly)` leaves the state unchanged when `dc` is 0 or
when `firstOnly` is set and `mainDCChanged` is already true; otherwise it sets
`mainDCChanged` and makes `mtpMainDC()` return `dc` (also when `dc` was the
main DC already) and changes nothing else. Hence two `firstOnly` calls with
different non-zero ids from a state with `mainDCChanged` false leave the first
id as main DC. -/
theorem mtpSetDC_spec (dc : Int) (firstOnly : Bool) (s : State) :
    ((dc = 0 ∨ (firstOnly = true ∧ s.mainDCChanged = true)) → mtpSetDC dc firstOnly s = s) ∧
    (¬ (dc = 0 ∨ (firstOnly = true ∧ s.mainDCChanged = true)) →
      (mtpSetDC dc firstOnly s).mainDCChanged = true ∧
      mtpMainDC (mtpSetDC dc firstOnly s) = dc ∧
      mtpSetDC dc firstOnly s = { s with mainDCChanged := true, mainDC := dc }) ∧
    (∀ dc2 : Int, dc ≠ 0 → dc2 ≠ 0 → dc2 ≠ dc → s.mainDCChanged = false →
      mtpMainDC (mtpSetDC dc2 true (mtpSetDC dc true s)) = dc ∧
      (mtpSetDC dc true s).mainDCChanged = true ∧
      (mtpSetDC dc2 true (mtpSetDC dc true s)).mainDCChanged = true) := by
  have key : ∀ (x : Int) (f : Bool) (t : State),
      ¬ (x = 0 ∨ (f = true ∧ t.mainDCChanged = true)) →
      mtpSetDC x f t = { t with mainDCChanged := true, mainDC := x } := by
    intro x f t h
    unfold mtpSetDC
    rw [if_neg h]
    by_cases e : x = t.mainDC
    · simp [e]
    · simp [e]
  refine ⟨?_, ?_, ?_⟩
  · intro h
    unfold mtpSetDC
    rw [if_pos h]
  · intro h
    rw [key dc firstOnly s h]
    exact ⟨rfl, rfl, rfl⟩
  · intro dc2 h0 _ _ hch
    have h1 : ¬ (dc = 0 ∨ (true = true ∧ s.mainDCChanged = true)) := by
      simp [h0, hch]
    rw [key dc true s h1]
    have h2 : mtpSetDC dc2 true { s with mainDCChanged := true, mainDC := dc }
        = { s with mainDCChanged := true, mainDC := dc } := by
      unfold mtpSetDC
      simp
    rw [h2]
    exact ⟨rfl, rfl, rfl⟩

/-- C2 at concrete inputs: from the initial state (main DC 2, nothing chosen
yet) `mtpSetDC(4, true)` then `mtpSetDC(5, true)` leaves 4; `mtpSetDC(0, false)`
changes nothing; `mtpSetDC(2, false)` sets `mainDCChanged` although 2 was the
main DC. -/
theorem mtpSetDC_spec_witness :
    mtpMainDC (mtpSetDC 5 true (mtpSetDC 4 true State.initial)) = 4 ∧
    (mtpSetDC 5 true (mtpSetDC 4 true State.initial)).mainDCChanged = true ∧
    mtpSetDC 0 false State.initial = State.initial ∧
    (mtpSetDC 2 false State.initial).mainDCChanged = true ∧
    mtpMainDC (mtpSetDC 2 false State.initial) = 2 :=
  ⟨((mtpSetDC_spec 4 true State.initial).2.2 5 (by decide) (by decide) (by decide) rfl).1,
   ((mtpSetDC_spec 4 true State.initial).2.2 5 (by decide) (by decide) (by decide) rfl).2.2,
   (mtpSetDC_spec 0 false State.initial).1 (Or.inl rfl),
   ((mtpSetDC_spec 2 false State.initial).2.1 (by decide)).1,
   ((mtpSetDC_spec 2 false State.initial).2.1 (by decide)).2.1⟩

/-- C3: the DCs `mtpUpdateDcOptions(L)` restarts are exactly the ids `d` for
which the table held an entry before the call and the first option for `d` in
`L` has an ip or a port different from that entry; each is restarted once. -/
theorem mtpUpdateDcOptions_restart_set (L : List MTPDcOption) (s : State) :
    (mtpUpdateDcOptions L s).effects = s.effects ++ (restartSet L s).map Effect.restart ∧
    (restartSet L s).Nodup ∧
    (∀ d, d ∈ restartSet L s ↔
      ∃ a o, QMap.constFind d s.cDcOptions = some a ∧ firstOption d L = some o ∧
        addressChanged a o) := by
  refine ⟨rfl, loop_restart_nodup L [] [] s.cDcOptions List.nodup_nil, ?_⟩
  intro d
  unfold restartSet
  rw [loop_restart_mem]
  simp

/-- C3 at concrete inputs: with DC 1 and DC 2 held, an option for DC 1 that
differs only in port restarts DC 1 once (its later duplicate is ignored), an
option for DC 2 that differs only in hostname restarts nothing, and the
unknown DC 3 is not restarted. -/
theorem mtpUpdateDcOptions_restart_set_witness :
    restartSet [⟨1, "a", "1.1.1.1", 80⟩, ⟨2, "c", "2.2.2.2", 443⟩, ⟨3, "d", "3.3.3.3", 443⟩,
        ⟨1, "a", "9.9.9.9", 80⟩]
      { State.initial with cDcOptions :=
          [(1, ⟨1, "a", "1.1.1.1", 443⟩), (2, ⟨2, "b", "2.2.2.2", 443⟩)] } = [1] ∧
    (restartSet [⟨1, "a", "1.1.1.1", 80⟩, ⟨2, "c", "2.2.2.2", 443⟩, ⟨3, "d", "3.3.3.3", 443⟩,
        ⟨1, "a", "9.9.9.9", 80⟩]
      { State.initial with cDcOptions :=
          [(1, ⟨1, "a", "1.1.1.1", 443⟩), (2, ⟨2, "b", "2.2.2.2", 443⟩)] }).Nodup :=
  ⟨by decide, (mtpUpdateDcOptions_restart_set _ _).2.1⟩

/-- C4: after `mtpUpdateDcOptions(L)` the table maps every id that occurs in
`L` to the option of its first occurrence and every other id as before;
applying `L` with the later duplicates of each id deleted gives the same
state (table and restart calls) and the same restart set. -/
theorem mtpUpdateDcOptions_table (L : List MTPDcOption) (s : State) :
    (∀ d, QMap.constFind d (mtpUpdateDcOptions L s).cDcOptions =
      match firstOption d L with
      | some o => some o.toStored
      | none => QMap.constFind d s.cDcOptions) ∧
    mtpUpdateDcOptions (dropLaterDuplicates L []) s = mtpUpdateDcOptions L s ∧
    restartSet (dropLaterDuplicates L []) s = restartSet L s := by
  refine ⟨table_after L s, ?_, ?_⟩
  · unfold mtpUpdateDcOptions
    rw [loop_dropLaterDuplicates L [] [] [] s.cDcOptions (fun _ => Iff.rfl)]
  · unfold restartSet
    rw [loop_dropLaterDuplicates L [] [] [] s.cDcOptions (fun _ => Iff.rfl)]

/-- C4 at concrete inputs: of two options for DC 1 the first is stored, DC 3
is added, and the entry of DC 2, which the list does not mention, stays. -/
theorem mtpUpdateDcOptions_table_witness :
    (mtpUpdateDcOptions [⟨1, "a", "1.1.1.1", 80⟩, ⟨3, "d", "3.3.3.3", 443⟩,
        ⟨1, "z", "9.9.9.9", 81⟩]
      { State.initial with cDcOptions :=
          [(1, ⟨1, "a", "1.1.1.1", 443⟩), (2, ⟨2, "b", "2.2.2.2", 443⟩)] }).cDcOptions
      = [(1, ⟨1, "a", "1.1.1.1", 80⟩), (2, ⟨2, "b", "2.2.2.2", 443⟩),
         (3, ⟨3, "d", "3.3.3.3", 443⟩)] ∧
    dropLaterDuplicates [⟨1, "a", "1.1.1.1", 80⟩, ⟨3, "d", "3.3.3.3", 443⟩,
        ⟨1, "z", "9.9.9.9", 81⟩] []
      = [⟨1, "a", "1.1.1.1", 80⟩, ⟨3, "d", "3.3.3.3", 443⟩] ∧
    mtpUpdateDcOptions (dropLaterDuplicates [⟨1, "a", "1.1.1.1", 80⟩, ⟨3, "d", "3.3.3.3", 443⟩,
        ⟨1, "z", "9.9.9.9", 81⟩] [])
      { State.initial with cDcOptions :=
          [(1, ⟨1, "a", "1.1.1.1", 443⟩), (2, ⟨2, "b", "2.2.2.2", 443⟩)] }
      = mtpUpdateDcOptions [⟨1, "a", "1.1.1.1", 80⟩, ⟨3, "d", "3.3.3.3", 443⟩,
        ⟨1, "z", "9.9.9.9", 81⟩]
      { State.initial with cDcOptions :=
          [(1, ⟨1, "a", "1.1.1.1", 443⟩), (2, ⟨2, "b", "2.2.2.2", 443⟩)] } :=
  ⟨by decide, by decide, (mtpUpdateDcOptions_table _ _).2.1⟩

/-- C5: for every well-formed table and every list `L` (duplicates allowed),
a second `mtpUpdateDcOptions(L)` right after the first restarts no DC and
leaves the table, and the whole state, unchanged. -/
theorem mtpUpdateDcOptions_twice (L : List MTPDcOption) (s : State)
    (hwf : QMap.WF s.cDcOptions) :
    restartSet L (mtpUpdateDcOptions L s) = [] ∧
    (mtpUpdateDcOptions L (mtpUpdateDcOptions L s)).cDcOptions
      = (mtpUpdateDcOptions L s).cDcOptions ∧
    mtpUpdateDcOptions L (mtpUpdateDcOptions L s) = mtpUpdateDcOptions L s := by
  have hfix : (mtpUpdateDcOptions.loop L [] [] (mtpUpdateDcOptions L s).cDcOptions).2
      = ([], (mtpUpdateDcOptions L s).cDcOptions) := by
    apply loop_fixed
    · exact loop_WF L [] [] s.cDcOptions hwf
    · intro d o _ hf
      rw [table_after L s d, hf]
  have h1 : restartSet L (mtpUpdateDcOptions L s) = [] := by
    unfold restartSet
    rw [hfix]
  have h2 : mtpUpdateDcOptions L (mtpUpdateDcOptions L s) = mtpUpdateDcOptions L s := by
    generalize mtpUpdateDcOptions L s = s1 at hfix
    show ({ s1 with
      cDcOptions := (mtpUpdateDcOptions.loop L [] [] s1.cDcOptions).2.2,
      effects := s1.effects ++
        (mtpUpdateDcOptions.loop L [] [] s1.cDcOptions).2.1.map Effect.restart } : State) = s1
    rw [hfix]
    simp
  exact ⟨h1, by rw [h2], h2⟩

/-- C5 at concrete inputs: a list with a duplicate of DC 1 whose first option
changes the port; the second application restarts nothing. -/
theorem mtpUpdateDcOptions_twice_witness :
    QMap.WF ({ State.initial with cDcOptions :=
      [(1, ⟨1, "a", "1.1.1.1", 443⟩), (2, ⟨2, "b", "2.2.2.2", 443⟩)] } : State).cDcOptions ∧
    restartSet [⟨1, "a", "1.1.1.1", 80⟩, ⟨1, "a", "1.1.1.1", 443⟩]
      { State.initial with cDcOptions :=
        [(1, ⟨1, "a", "1.1.1.1", 443⟩), (2, ⟨2, "b", "2.2.2.2", 443⟩)] } = [1] ∧
    restartSet [⟨1, "a", "1.1.1.1", 80⟩, ⟨1, "a", "1.1.1.1", 443⟩]
      (mtpUpdateDcOptions [⟨1, "a", "1.1.1.1", 80⟩, ⟨1, "a", "1.1.1.1", 443⟩]
        { State.initial with cDcOptions :=
          [(1, ⟨1, "a", "1.1.1.1", 443⟩), (2, ⟨2, "b", "2.2.2.2", 443⟩)] }) = [] :=
  ⟨by decide, by decide, (mtpUpdateDcOptions_twice _ _ (by decide)).1⟩

/-- C6, as the code has it: `mtpSetKey(id, k)` always constructs a new record
with key `k` and `_connectionInited` false and registers it under `id`,
replacing the record held there if any; the key index gets `k` for `id` (no
entry when `k` is empty); the records and index entries of the other ids, and
the scalars, are unchanged. -/
theorem mtpSetKey_registers_new_record (id : Int) (k : mtpAuthKeyPtr) (s : State) :
    QMap.constFind id (mtpSetKey id k s).gDCs
      = some { _id := id, _key := k, _connectionInited := false, queuedAuthKeyCreated := 0 } ∧
    (∀ d, d ≠ id → QMap.constFind d (mtpSetKey id k s).gDCs = QMap.constFind d s.gDCs) ∧
    QMap.constFind id (mtpSetKey id k s)._keysMapForWrite = k ∧
    (∀ d, d ≠ id → QMap.constFind d (mtpSetKey id k s)._keysMapForWrite
      = QMap.constFind d s._keysMapForWrite) ∧
    (mtpSetKey id k s).mainDC = s.mainDC ∧
    (mtpSetKey id k s).mainDCChanged = s.mainDCChanged ∧
    (mtpSetKey id k s).userId = s.userId ∧
    (mtpSetKey id k s).configLoadedOnce = s.configLoadedOnce := by
  refine ⟨?_, ?_, ?_, ?_, rfl, rfl, rfl, rfl⟩
  · show QMap.constFind id (QMap.insert id (MTProtoDC.new id k s).1 s.gDCs) = _
    rw [QMap.constFind_insert]
    simp [MTProtoDC.new]
  · intro d hd
    show QMap.constFind d (QMap.insert id (MTProtoDC.new id k s).1 s.gDCs) = _
    rw [QMap.constFind_insert, if_neg hd]
  · show QMap.constFind id (writeKeyIndex id k s._keysMapForWrite) = _
    rw [constFind_writeKeyIndex, if_pos rfl]
  · intro d hd
    show QMap.constFind d (writeKeyIndex id k s._keysMapForWrite) = _
    rw [constFind_writeKeyIndex, if_neg hd]

/-- C6 fails as stated: after `mtpSetKey(1, key 7)` the registry holds a
record for DC 1, and `mtpSetKey(1, key 9)` replaces that record by one with
key 9 and changes the key index from key 7 to key 9. -/
theorem mtpSetKey_existing_record_counterexample :
    QMap.constFind 1 (mtpSetKey 1 (some ⟨7⟩) State.initial).gDCs
      = some { _id := 1, _key := some ⟨7⟩, _connectionInited := false,
               queuedAuthKeyCreated := 0 } ∧
    QMap.constFind 1 (mtpSetKey 1 (some ⟨9⟩) (mtpSetKey 1 (some ⟨7⟩) State.initial)).gDCs
      = some { _id := 1, _key := some ⟨9⟩, _connectionInited := false,
               queuedAuthKeyCreated := 0 } ∧
    (mtpSetKey 1 (some ⟨7⟩) State.initial)._keysMapForWrite = [(1, ⟨7⟩)] ∧
    (mtpSetKey 1 (some ⟨9⟩) (mtpSetKey 1 (some ⟨7⟩) State.initial))._keysMapForWrite
      = [(1, ⟨9⟩)] ∧
    ¬ (∀ (s : State) (id : Int) (k : mtpAuthKeyPtr) (dc : MTProtoDC),
        QMap.constFind id s.gDCs = some dc →
        QMap.constFind id (mtpSetKey id k s).gDCs = some dc ∧
        (mtpSetKey id k s)._keysMapForWrite = s._keysMapForWrite) := by
  refine ⟨by decide, by decide, by decide, by decide, ?_⟩
  intro h
  have h1 := (h (mtpSetKey 1 (some ⟨7⟩) State.initial) 1 (some ⟨9⟩)
    { _id := 1, _key := some ⟨7⟩, _connectionInited := false, queuedAuthKeyCreated := 0 }
    (by decide)).2
  revert h1
  decide

/-- C7: `setKey(k)` on a record leaves it with key `k` and `_connectionInited`
false and with its id, makes the key-index entry of that id equal to `k` (no
entry when `k` is empty), and leaves unchanged the index entries of all other
ids, the registry and the scalars `mainDC`, `mainDCChanged`, `userId` and
`configLoadedOnce`. -/
theorem setKey_frame (self : MTProtoDC) (k : mtpAuthKeyPtr) (s : State) :
    (self.setKey k s).1._key = k ∧
    (self.setKey k s).1._connectionInited = false ∧
    (self.setKey k s).1._id = self._id ∧
    QMap.constFind self._id (self.setKey k s).2._keysMapForWrite = k ∧
    (∀ d, d ≠ self._id → QMap.constFind d (self.setKey k s).2._keysMapForWrite
      = QMap.constFind d s._keysMapForWrite) ∧
    (self.setKey k s).2.gDCs = s.gDCs ∧
    (self.setKey k s).2.mainDC = s.mainDC ∧
    (self.setKey k s).2.mainDCChanged = s.mainDCChanged ∧
    (self.setKey k s).2.userId = s.userId ∧
    (self.setKey k s).2.configLoadedOnce = s.configLoadedOnce := by
  refine ⟨rfl, rfl, rfl, ?_, ?_, rfl, rfl, rfl, rfl, rfl⟩
  · show QMap.constFind self._id (writeKeyIndex self._id k s._keysMapForWrite) = _
    rw [constFind_writeKeyIndex, if_pos rfl]
  · intro d hd
    show QMap.constFind d (writeKeyIndex self._id k s._keysMapForWrite) = _
    rw [constFind_writeKeyIndex, if_neg hd]

/-- C7 at concrete inputs: a record of DC 2 with key 5 and an initialized
connection, beside an index entry of DC 1; `setKey(key 9)` and `setKey(empty)`. -/
theorem setKey_frame_witness :
    (MTProtoDC.setKey ⟨2, some ⟨5⟩, true, 0⟩ (some ⟨9⟩)
      { State.initial with _keysMapForWrite := [(1, ⟨7⟩), (2, ⟨5⟩)] })
      = (⟨2, some ⟨9⟩, false, 1⟩,
         { State.initial with _keysMapForWrite := [(1, ⟨7⟩), (2, ⟨9⟩)] }) ∧
    (MTProtoDC.setKey ⟨2, some ⟨5⟩, true, 0⟩ none
      { State.initial with _keysMapForWrite := [(1, ⟨7⟩), (2, ⟨5⟩)] })
      = (⟨2, none, false, 1⟩, { State.initial with _keysMapForWrite := [(1, ⟨7⟩)] }) ∧
    (MTProtoDC.setKey ⟨2, some ⟨5⟩, true, 0⟩ (some ⟨9⟩)
      { State.initial with _keysMapForWrite := [(1, ⟨7⟩), (2, ⟨5⟩)] }).1._connectionInited
      = false :=
  ⟨by decide, by decide, (setKey_frame _ _ _).2.1⟩

/-- C8, as the code has it: `destroyKey()` on a record that holds no key
leaves the key empty and the id as it was and leaves `_connectionInited`
false, resetting it when it was set, so key and flag are both unchanged
exactly when the flag was false already; it removes the record's id from the
key index, which leaves the index unchanged when it had no entry for that id,
as is the case for every registered record of a state reached by key
operations from the empty registry and index; afterwards `mtpGetKeys()` holds
the keys of the other index entries only. -/
theorem destroyKey_without_key (self : MTProtoDC) (s : State) (hkey : self._key = none) :
    (self.destroyKey s).1._key = self._key ∧
    (self.destroyKey s).1._id = self._id ∧
    (self.destroyKey s).1._connectionInited = false ∧
    ((self.destroyKey s).1._connectionInited = self._connectionInited
      ↔ self._connectionInited = false) ∧
    (self.destroyKey s).2._keysMapForWrite = QMap.remove self._id s._keysMapForWrite ∧
    (QMap.constFind self._id s._keysMapForWrite = none →
      (self.destroyKey s).2._keysMapForWrite = s._keysMapForWrite) ∧
    (∀ (ops : List KeyOp) (s0 : State), s0.gDCs = [] → s0._keysMapForWrite = [] →
      runKeyOps ops s0 = some s → QMap.constFind self._id s.gDCs = some self →
      (self.destroyKey s).2._keysMapForWrite = s._keysMapForWrite) ∧
    QMap.constFind self._id (self.destroyKey s).2._keysMapForWrite = none ∧
    mtpGetKeys (self.destroyKey s).2 = QMap.values (QMap.remove self._id s._keysMapForWrite) := by
  have hidx : (self.destroyKey s).2._keysMapForWrite
      = QMap.remove self._id s._keysMapForWrite :=
    writeKeyIndex_none_twice self._id s._keysMapForWrite
  have hflag : (self.destroyKey s).1._connectionInited = false := rfl
  refine ⟨hkey.symm, rfl, hflag, ?_, hidx, ?_, ?_, ?_, ?_⟩
  · rw [hflag]
    exact eq_comm
  · intro hnone
    rw [hidx, QMap.remove_of_constFind_none _ _ hnone]
  · intro ops s0 hreg hi hrun hself
    have hinv := (KeysInv_run ops s0 s hreg hi hrun).2.2 self._id self hself
    rw [hidx, QMap.remove_of_constFind_none _ _ (by rw [hinv.2, hkey])]
  · rw [hidx, QMap.constFind_remove, if_pos rfl]
  · unfold mtpGetKeys
    rw [hidx]

/-- C8 at concrete inputs: the record of DC 3 registered without a key in a
state reached by key operations; `destroyKey()` leaves the index as it was. -/
theorem destroyKey_without_key_witness :
    (MTProtoDC.destroyKey ⟨3, none, false, 0⟩
      (mtpSetKey 3 none (mtpSetKey 1 (some ⟨7⟩) State.initial))).1._key = none ∧
    (MTProtoDC.destroyKey ⟨3, none, false, 0⟩
      (mtpSetKey 3 none (mtpSetKey 1 (some ⟨7⟩) State.initial))).2._keysMapForWrite
      = [(1, ⟨7⟩)] ∧
    mtpGetKeys (MTProtoDC.destroyKey ⟨3, none, false, 0⟩
      (mtpSetKey 3 none (mtpSetKey 1 (some ⟨7⟩) State.initial))).2 = [⟨7⟩] :=
  ⟨(destroyKey_without_key ⟨3, none, false, 0⟩ _ rfl).1, by decide, by decide⟩

/-- C8 fails as stated: a record of DC 1 that holds no key and whose
connection is marked initialized has the mark cleared by `destroyKey()`. -/
theorem destroyKey_without_key_counterexample :
    (⟨1, none, true, 0⟩ : MTProtoDC)._key = none ∧
    (MTProtoDC.destroyKey ⟨1, none, true, 0⟩ State.initial).1._key = none ∧
    (⟨1, none, true, 0⟩ : MTProtoDC)._connectionInited = true ∧
    (MTProtoDC.destroyKey ⟨1, none, true, 0⟩ State.initial).1._connectionInited = false ∧
    ¬ (∀ (self : MTProtoDC) (s : State), self._key = none →
        (self.destroyKey s).1._key = self._key ∧
        (self.destroyKey s).1._connectionInited = self._connectionInited ∧
        (self.destroyKey s).2._keysMapForWrite = s._keysMapForWrite) := by
  refine ⟨rfl, rfl, rfl, rfl, ?_⟩
  intro h
  have h1 := (h ⟨1, none, true, 0⟩ State.initial rfl).2.1
  revert h1
  decide

/-- C9: with `m` the main DC during the call, `mtpLogoutOtherDCs()` sends its
logout requests to exactly the ids that have an entry in the key index and
differ from `m`, one request for each, and leaves the key index unchanged. -/
theorem mtpLogoutOtherDCs_targets (m : Int) (s : State) (hwf : QMap.WF s._keysMapForWrite) :
    ∃ targets : List Int,
      (mtpLogoutOtherDCs m s).effects = s.effects ++ targets.map Effect.sendLogOut ∧
      targets.Nodup ∧
      (∀ d, d ∈ targets ↔ (∃ k, QMap.constFind d s._keysMapForWrite = some k) ∧ d ≠ m) ∧
      (mtpLogoutOtherDCs m s)._keysMapForWrite = s._keysMapForWrite := by
  refine ⟨(QMap.keys s._keysMapForWrite).filter (fun d => decide (d ≠ m)), rfl, ?_, ?_, rfl⟩
  · apply List.Nodup.filter
    exact List.Pairwise.imp (fun h => ne_of_lt h) (QMap.keys_pairwise hwf)
  · intro d
    rw [List.mem_filter, QMap.mem_keys_iff, Option.isSome_iff_exists]
    simp

/-- C9 at concrete inputs: keys held for DCs 1, 2 and 4 and main DC 2; the
requests go to DC 1 and DC 4. -/
theorem mtpLogoutOtherDCs_targets_witness :
    (mtpLogoutOtherDCs 2
      { State.initial with _keysMapForWrite := [(1, ⟨7⟩), (2, ⟨8⟩), (4, ⟨9⟩)] }).effects
      = [Effect.sendLogOut 1, Effect.sendLogOut 4] ∧
    ∃ targets : List Int,
      (mtpLogoutOtherDCs 2
        { State.initial with _keysMapForWrite := [(1, ⟨7⟩), (2, ⟨8⟩), (4, ⟨9⟩)] }).effects
        = ({ State.initial with _keysMapForWrite := [(1, ⟨7⟩), (2, ⟨8⟩), (4, ⟨9⟩)] }
            : State).effects ++ targets.map Effect.sendLogOut ∧
      targets.Nodup ∧
      (∀ d, d ∈ targets ↔ (∃ k, QMap.constFind d ({ State.initial with
          _keysMapForWrite := [(1, ⟨7⟩), (2, ⟨8⟩), (4, ⟨9⟩)] } : State)._keysMapForWrite
            = some k) ∧ d ≠ 2) ∧
      (mtpLogoutOtherDCs 2
        { State.initial with _keysMapForWrite := [(1, ⟨7⟩), (2, ⟨8⟩), (4, ⟨9⟩)] })._keysMapForWrite
        = ({ State.initial with _keysMapForWrite := [(1, ⟨7⟩), (2, ⟨8⟩), (4, ⟨9⟩)] }
            : State)._keysMapForWrite :=
  ⟨by decide, mtpLogoutOtherDCs_targets 2 _ (by decide)⟩

/-- C10, as the code has it: every `setKey` and `destroyKey` call posts one
`authKeyCreated` notification and writes nothing itself; delivering a posted
notification runs `authKeyWrite`, which calls `Local::writeMtpData` once when
the record holds a non-empty key at that moment and not at all when it holds
none, whichever call posted the notification, and leaves the key as it is; a
delivery with nothing posted does nothing. When no other key call comes
between a call and the delivery of its notification (the notifications posted
before it being delivered first), that delivery makes one write for a
`setKey` with a non-empty key and none for a `destroyKey` or a `setKey` with
the empty key. In every run the writes made and notifications still posted
never exceed those at the start plus the number of `setKey` and `destroyKey`
calls. -/
theorem authKeyWrite_persistence (self : MTProtoDC) (s : State) (key : mtpAuthKeyPtr)
    (ops : List RecordOp) :
    ((self.setKey key s).1.queuedAuthKeyCreated = self.queuedAuthKeyCreated + 1 ∧
      writes (self.setKey key s).2 = writes s) ∧
    ((self.destroyKey s).1.queuedAuthKeyCreated = self.queuedAuthKeyCreated + 1 ∧
      writes (self.destroyKey s).2 = writes s) ∧
    (0 < self.queuedAuthKeyCreated →
      (self.deliverAuthKeyCreated s).1.queuedAuthKeyCreated + 1 = self.queuedAuthKeyCreated ∧
      (self.deliverAuthKeyCreated s).1._key = self._key ∧
      writes (self.deliverAuthKeyCreated s).2
        = writes s + (if self._key.isSome then 1 else 0)) ∧
    (self.queuedAuthKeyCreated = 0 → self.deliverAuthKeyCreated s = (self, s)) ∧
    (writes (runRecordOps (RecordOp.setKey key ::
          List.replicate (self.queuedAuthKeyCreated + 1) RecordOp.deliver) (self, s)).2
        = writes (runRecordOps (RecordOp.setKey key ::
            List.replicate self.queuedAuthKeyCreated RecordOp.deliver) (self, s)).2
          + (if key.isSome then 1 else 0) ∧
      writes (runRecordOps (RecordOp.destroyKey ::
          List.replicate (self.queuedAuthKeyCreated + 1) RecordOp.deliver) (self, s)).2
        = writes (runRecordOps (RecordOp.destroyKey ::
            List.replicate self.queuedAuthKeyCreated RecordOp.deliver) (self, s)).2) ∧
    (self.queuedAuthKeyCreated = 0 →
      writes (runRecordOps [RecordOp.setKey key, RecordOp.deliver] (self, s)).2
        = writes s + (if key.isSome then 1 else 0) ∧
      writes (runRecordOps [RecordOp.destroyKey, RecordOp.deliver] (self, s)).2 = writes s) ∧
    writes (runRecordOps ops (self, s)).2 + (runRecordOps ops (self, s)).1.queuedAuthKeyCreated
      ≤ writes s + self.queuedAuthKeyCreated + keyCalls ops := by
  refine ⟨⟨rfl, rfl⟩, ⟨rfl, rfl⟩, ?_, ?_, ⟨?_, ?_⟩, ?_, writes_run ops (self, s)⟩
  · intro hpos
    have h0 : ¬ self.queuedAuthKeyCreated = 0 := Nat.pos_iff_ne_zero.1 hpos
    refine ⟨?_, ?_, writes_deliver self s hpos⟩
    · simp only [MTProtoDC.deliverAuthKeyCreated, h0, if_false]
      omega
    · simp only [MTProtoDC.deliverAuthKeyCreated, h0, if_false]
  · intro h0
    simp [MTProtoDC.deliverAuthKeyCreated, h0]
  · exact own_delivery (self.setKey key s) self.queuedAuthKeyCreated rfl
  · have h := own_delivery (self.destroyKey s) self.queuedAuthKeyCreated rfl
    have hk : (self.destroyKey s).1._key = none := rfl
    rw [hk] at h
    simpa using h
  · intro h0
    constructor
    · show writes ((self.setKey key s).1.deliverAuthKeyCreated (self.setKey key s).2).2 = _
      rw [writes_deliver _ _ (by show 0 < self.queuedAuthKeyCreated + 1; omega)]
      rfl
    · show writes ((self.destroyKey s).1.deliverAuthKeyCreated (self.destroyKey s).2).2 = _
      rw [writes_deliver _ _ (by show 0 < self.queuedAuthKeyCreated + 1; omega)]
      rfl

/-- C10 at concrete inputs: on the new record of DC 1 with key 7, `setKey(key
9)` and its delivery make one write; a run of three calls and three
deliveries makes two. -/
theorem authKeyWrite_persistence_witness :
    writes (runRecordOps [RecordOp.setKey (some ⟨9⟩), RecordOp.deliver]
      (MTProtoDC.new 1 (some ⟨7⟩) State.initial)).2 = 1 ∧
    writes (runRecordOps [RecordOp.setKey (some ⟨9⟩), RecordOp.deliver, RecordOp.destroyKey,
      RecordOp.deliver, RecordOp.setKey (some ⟨5⟩), RecordOp.deliver]
      (MTProtoDC.new 1 (some ⟨7⟩) State.initial)).2 = 2 ∧
    writes (runRecordOps [RecordOp.setKey (some ⟨9⟩), RecordOp.deliver]
        (MTProtoDC.new 1 (some ⟨7⟩) State.initial)).2
      + (runRecordOps [RecordOp.setKey (some ⟨9⟩), RecordOp.deliver]
        (MTProtoDC.new 1 (some ⟨7⟩) State.initial)).1.queuedAuthKeyCreated
      ≤ writes (MTProtoDC.new 1 (some ⟨7⟩) State.initial).2
        + (MTProtoDC.new 1 (some ⟨7⟩) State.initial).1.queuedAuthKeyCreated
        + keyCalls [RecordOp.setKey (some ⟨9⟩), RecordOp.deliver] :=
  ⟨by decide, by decide,
   (authKeyWrite_persistence (MTProtoDC.new 1 (some ⟨7⟩) State.initial).1
     (MTProtoDC.new 1 (some ⟨7⟩) State.initial).2 none
     [RecordOp.setKey (some ⟨9⟩), RecordOp.deliver]).2.2.2.2.2.2⟩

/-- C10 fails as stated: on the record of DC 1 created with key 7,
`destroyKey()` changes the key to the empty key and the delivery of its
notification writes nothing; `setKey(key 7)`, which changes no key, is
followed by a write at its delivery; `setKey(key 9)` and `destroyKey()`
called before either notification is delivered change the key twice and no
delivery writes; and after `destroyKey()` and `setKey(key 9)` the delivery of
the notification of `destroyKey()` already writes. -/
theorem authKeyWrite_persistence_counterexample :
    (MTProtoDC.new 1 (some ⟨7⟩) State.initial).1._key = some ⟨7⟩ ∧
    (runRecordOps [RecordOp.destroyKey] (MTProtoDC.new 1 (some ⟨7⟩) State.initial)).1._key
      = none ∧
    (runRecordOps [RecordOp.destroyKey]
      (MTProtoDC.new 1 (some ⟨7⟩) State.initial)).1.queuedAuthKeyCreated = 1 ∧
    (runRecordOps [RecordOp.destroyKey, RecordOp.deliver]
      (MTProtoDC.new 1 (some ⟨7⟩) State.initial)).1.queuedAuthKeyCreated = 0 ∧
    writes (runRecordOps [RecordOp.destroyKey, RecordOp.deliver]
      (MTProtoDC.new 1 (some ⟨7⟩) State.initial)).2 = 0 ∧
    (runRecordOps [RecordOp.setKey (some ⟨7⟩)]
      (MTProtoDC.new 1 (some ⟨7⟩) State.initial)).1._key = some ⟨7⟩ ∧
    writes (runRecordOps [RecordOp.setKey (some ⟨7⟩), RecordOp.deliver]
      (MTProtoDC.new 1 (some ⟨7⟩) State.initial)).2 = 1 ∧
    writes (runRecordOps [RecordOp.setKey (some ⟨9⟩), RecordOp.destroyKey, RecordOp.deliver,
      RecordOp.deliver] (MTProtoDC.new 1 (some ⟨7⟩) State.initial)).2 = 0 ∧
    writes (runRecordOps [RecordOp.destroyKey, RecordOp.setKey (some ⟨9⟩), RecordOp.deliver]
      (MTProtoDC.new 1 (some ⟨7⟩) State.initial)).2 = 1 := by
  decide

/-- C11: `load()` called while `loadingConfig` is true changes nothing: no
request is sent, the timer is not restarted, and `loadingConfig`,
`_enumCurrent` and `_enumRequest` stay as they are. A `load()` that follows a
`load()` is therefore without effect, and two consecutive calls made when no
load was in progress send exactly one config request. -/
theorem load_while_loading (request request2 : Int) (self : MTProtoConfigLoader) (s : State) :
    (s.loadingConfig = true → self.load request s = (self, s)) ∧
    (self.load request s).1.load request2 (self.load request s).2 = self.load request s ∧
    (s.loadingConfig = false →
      ((self.load request s).1.load request2 (self.load request s).2).2.effects
        = s.effects ++ [Effect.sendGetConfig none request, Effect.timerStart] ∧
      configRequests ((self.load request s).1.load request2 (self.load request s).2).2.effects
        = configRequests s.effects + 1) := by
  have hafter : (self.load request s).2.loadingConfig = true := by
    unfold MTProtoConfigLoader.load
    by_cases h : s.loadingConfig = true
    · simp [h]
    · simp [h]
  have hsecond : (self.load request s).1.load request2 (self.load request s).2
      = self.load request s := by
    generalize self.load request s = r at hafter
    unfold MTProtoConfigLoader.load
    simp [hafter]
  refine ⟨?_, hsecond, ?_⟩
  · intro h
    unfold MTProtoConfigLoader.load
    simp [h]
  · intro h
    rw [hsecond]
    have hl : self.load request s = ({ self with _enumDCTimer := true },
        { s with loadingConfig := true,
                 effects := s.effects ++ [Effect.sendGetConfig none request, Effect.timerStart] }) := by
      unfold MTProtoConfigLoader.load
      simp [h]
    rw [hl]
    refine ⟨rfl, ?_⟩
    simp [configRequests, List.filter_append]

/-- C11 at concrete inputs: two `load()` calls on a new loader send the one
request with handle 100. -/
theorem load_while_loading_witness :
    (runLoader 10000 [LoaderStep.load 100, LoaderStep.load 101]
      (MTProtoConfigLoader.new, State.initial)).2.effects
      = [Effect.sendGetConfig none 100, Effect.timerStart] ∧
    (MTProtoConfigLoader.load 100 MTProtoConfigLoader.new State.initial).1.load 101
        (MTProtoConfigLoader.load 100 MTProtoConfigLoader.new State.initial).2
      = MTProtoConfigLoader.load 100 MTProtoConfigLoader.new State.initial :=
  ⟨by decide, (load_while_loading 100 101 MTProtoConfigLoader.new State.initial).2.1⟩

/-! ## Lemmas on the config loader -/

theorem enumDC_loading (cfg request : Int) (self : MTProtoConfigLoader) (s : State)
    (h : s.loadingConfig = true) :
    self.enumDC cfg request s =
      ({ self with
          _enumCurrent := MTProtoConfigLoader.enumDC.loop s.cDcOptions (enumStart self s) s.cDcOptions,
          _enumRequest := request, _enumDCTimer := true },
       { s with effects := s.effects ++ cleanupOf cfg self._enumRequest self._enumCurrent ++
          [Effect.sendGetConfig (some (cfg + MTProtoConfigLoader.enumDC.loop s.cDcOptions
            (enumStart self s) s.cDcOptions)) request, Effect.timerStart] }) := by
  unfold MTProtoConfigLoader.enumDC cleanupOf enumStart
  by_cases hr : self._enumRequest = 0
  · by_cases hc : self._enumCurrent = 0
    · simp [h, hr, hc]
    · simp [h, hr, hc]
  · by_cases hc : self._enumCurrent = 0
    · simp [h, hr, hc]
    · simp [h, hr, hc]

theorem enumDC_not_loading (cfg request : Int) (self : MTProtoConfigLoader) (s : State)
    (h : s.loadingConfig = false) : self.enumDC cfg request s = (self, s) := by
  unfold MTProtoConfigLoader.enumDC
  simp [h]

theorem load_not_loading (request : Int) (self : MTProtoConfigLoader) (s : State)
    (h : s.loadingConfig = false) :
    self.load request s = ({ self with _enumDCTimer := true },
      { s with loadingConfig := true,
               effects := s.effects ++ [Effect.sendGetConfig none request, Effect.timerStart] }) := by
  unfold MTProtoConfigLoader.load
  simp [h]

theorem onKillCurrentSession_stale (cfg request current : Int) (self : MTProtoConfigLoader)
    (s : State) (h : ¬ (request = self._enumRequest ∧ current = self._enumCurrent)) :
    self.onKillCurrentSession cfg request current s = (self, s) := by
  unfold MTProtoConfigLoader.onKillCurrentSession
  rw [if_neg h]

theorem onKillCurrentSession_match (cfg request current : Int) (self : MTProtoConfigLoader)
    (s : State) (h : request = self._enumRequest ∧ current = self._enumCurrent) :
    self.onKillCurrentSession cfg request current s
      = ({ self with _enumRequest := 0, _enumCurrent := 0 },
         { s with effects := s.effects ++ cleanupOf cfg self._enumRequest self._enumCurrent }) := by
  unfold MTProtoConfigLoader.onKillCurrentSession cleanupOf
  rw [if_pos h]
  by_cases hr : self._enumRequest = 0
  · by_cases hc : self._enumCurrent = 0
    · cases self
      simp_all
    · cases self
      simp_all
  · by_cases hc : self._enumCurrent = 0
    · cases self
      simp_all
    · cases self
      simp_all

theorem done_stops_timer (self : MTProtoConfigLoader) (s : State) :
    (self.done s).1._enumDCTimer = false := by
  unfold MTProtoConfigLoader.done
  by_cases h : self._enumRequest ≠ 0 ∨ self._enumCurrent ≠ 0
  · simp [h]
  · simp [h]

theorem configLoaded_effects (data : MTPDconfig) (self : MTProtoConfigLoader) (s : State) :
    (configLoaded data self s).2.effects
      = s.effects ++ (restartSet data.vdc_options s).map Effect.restart ++
        [Effect.writeSettings, Effect.timerStop, Effect.loaded] := by
  show (s.effects ++ (restartSet data.vdc_options s).map Effect.restart ++ [Effect.writeSettings])
    ++ [Effect.timerStop, Effect.loaded] = _
  simp

theorem deliver_effects (cfg : Int) (r : LoaderState) :
    (deliverKillCurrentSession cfg r).2.effects = r.2.effects ∨
    (deliverKillCurrentSession cfg r).2.effects
      = r.2.effects ++ cleanupOf cfg r.1._enumRequest r.1._enumCurrent := by
  unfold deliverKillCurrentSession
  cases hq : r.1.queuedKillCurrentSession with
  | nil => exact Or.inl rfl
  | cons p rest =>
    obtain ⟨request, current⟩ := p
    by_cases hm : request = r.1._enumRequest ∧ current = r.1._enumCurrent
    · right
      have h := (onKillCurrentSession_match cfg request current
        { r.1 with queuedKillCurrentSession := rest } r.2 hm)
      simp only [h]
    · left
      have h := (onKillCurrentSession_stale cfg request current
        { r.1 with queuedKillCurrentSession := rest } r.2 hm)
      simp only [h]

theorem loadedCount_append (a b : List Effect) :
    loadedCount (a ++ b) = loadedCount a + loadedCount b := by
  unfold loadedCount
  exact List.count_append _ _ _

theorem loadedCount_cleanupOf (cfg request current : Int) :
    loadedCount (cleanupOf cfg request current) = 0 := by
  unfold loadedCount cleanupOf
  by_cases hr : request = 0 <;> by_cases hc : current = 0 <;> simp [hr, hc]

theorem loadedCount_restart (l : List Int) : loadedCount (l.map Effect.restart) = 0 := by
  unfold loadedCount
  rw [List.count_eq_zero]
  intro h
  obtain ⟨_, _, h2⟩ := List.mem_map.1 h
  cases h2

theorem successSteps_cons (st : LoaderStep) (steps : List LoaderStep) :
    successSteps (st :: steps) = successSteps [st] + successSteps steps := by
  unfold successSteps
  cases st <;> simp [List.filter_cons]
  omega

theorem loadedCount_step (cfg : Int) (r : LoaderState) (st : LoaderStep) :
    loadedCount (st.apply cfg r).2.effects = loadedCount r.2.effects + successSteps [st] := by
  cases st with
  | load request =>
    show loadedCount (r.1.load request r.2).2.effects = _
    by_cases h : r.2.loadingConfig = true
    · simp [MTProtoConfigLoader.load, h, successSteps]
    · have h2 : r.2.loadingConfig = false := by simpa using h
      rw [load_not_loading _ _ _ h2]
      simp [loadedCount, successSteps, List.count_append]
  | tick request =>
    show loadedCount (r.1.enumDC cfg request r.2).2.effects = _
    by_cases h : r.2.loadingConfig = true
    · rw [enumDC_loading _ _ _ _ h]
      show loadedCount (r.2.effects ++ cleanupOf cfg r.1._enumRequest r.1._enumCurrent ++ _) = _
      rw [loadedCount_append, loadedCount_append, loadedCount_cleanupOf]
      simp [loadedCount, successSteps]
    · have h2 : r.2.loadingConfig = false := by simpa using h
      rw [enumDC_not_loading _ _ _ _ h2]
      simp [successSteps]
  | success data =>
    show loadedCount (configLoaded data r.1 r.2).2.effects = _
    rw [configLoaded_effects, loadedCount_append, loadedCount_append, loadedCount_restart]
    simp [loadedCount, successSteps]
  | failure => simp [LoaderStep.apply, configFailed, successSteps]
  | cleanup =>
    show loadedCount (deliverKillCurrentSession cfg r).2.effects = _
    rcases deliver_effects cfg r with h | h
    · rw [h]
      simp [successSteps]
    · rw [h, loadedCount_append, loadedCount_cleanupOf]
      simp [successSteps]

theorem loadedCount_run (cfg : Int) (steps : List LoaderStep) (r : LoaderState) :
    loadedCount (runLoader cfg steps r).2.effects
      = loadedCount r.2.effects + successSteps steps := by
  induction steps generalizing r with
  | nil => simp [runLoader, successSteps]
  | cons st rest ih =>
    show loadedCount (runLoader cfg rest (st.apply cfg r)).2.effects = _
    rw [ih, loadedCount_step, successSteps_cons st rest]
    omega

theorem uncancelledEnum_append (a b : List Effect) :
    uncancelledEnum (a ++ b) = b.foldl trackEnumRequest (uncancelledEnum a) := by
  unfold uncancelledEnum
  rw [List.foldl_append]

theorem track_restart (l : List Int) (acc : List Int) :
    (l.map Effect.restart).foldl trackEnumRequest acc = acc := by
  induction l with
  | nil => rfl
  | cons d rest ih => simpa [trackEnumRequest] using ih

theorem track_cleanupOf (cfg request current : Int) :
    (cleanupOf cfg request current).foldl trackEnumRequest
      (if request = 0 then [] else [request]) = [] := by
  unfold cleanupOf
  by_cases hr : request = 0 <;> by_cases hc : current = 0 <;>
    simp [hr, hc, trackEnumRequest]

theorem done_enumRequest (self : MTProtoConfigLoader) (s : State) :
    (self.done s).1._enumRequest = self._enumRequest := by
  unfold MTProtoConfigLoader.done
  by_cases h : self._enumRequest ≠ 0 ∨ self._enumCurrent ≠ 0
  · simp [h]
  · simp [h]

theorem EnumTracked_step (cfg : Int) (r : LoaderState) (st : LoaderStep)
    (hnz : ∀ request, st = LoaderStep.tick request → request ≠ 0)
    (h : EnumTracked r) : EnumTracked (st.apply cfg r) := by
  unfold EnumTracked at h ⊢
  cases st with
  | load request =>
    show uncancelledEnum (r.1.load request r.2).2.effects
      = if (r.1.load request r.2).1._enumRequest = 0 then []
        else [(r.1.load request r.2).1._enumRequest]
    by_cases hl : r.2.loadingConfig = true
    · simpa [MTProtoConfigLoader.load, hl] using h
    · have h2 : r.2.loadingConfig = false := by simpa using hl
      rw [load_not_loading _ _ _ h2]
      show uncancelledEnum (r.2.effects ++ _) = if r.1._enumRequest = 0 then [] else _
      rw [uncancelledEnum_append, h]
      simp [trackEnumRequest]
  | tick request =>
    have hreq : request ≠ 0 := hnz request rfl
    show uncancelledEnum (r.1.enumDC cfg request r.2).2.effects
      = if (r.1.enumDC cfg request r.2).1._enumRequest = 0 then []
        else [(r.1.enumDC cfg request r.2).1._enumRequest]
    by_cases hl : r.2.loadingConfig = true
    · rw [enumDC_loading _ _ _ _ hl]
      show uncancelledEnum (r.2.effects ++ cleanupOf cfg r.1._enumRequest r.1._enumCurrent ++ _)
        = if request = 0 then [] else [request]
      rw [uncancelledEnum_append, uncancelledEnum_append, h, track_cleanupOf]
      simp [trackEnumRequest, hreq]
    · have h2 : r.2.loadingConfig = false := by simpa using hl
      rw [enumDC_not_loading _ _ _ _ h2]
      exact h
  | success data =>
    show uncancelledEnum (configLoaded data r.1 r.2).2.effects
      = if (r.1.done _).1._enumRequest = 0 then [] else [(r.1.done _).1._enumRequest]
    rw [configLoaded_effects, done_enumRequest, uncancelledEnum_append, uncancelledEnum_append,
      track_restart, h]
    simp [trackEnumRequest]
  | failure => exact h
  | cleanup =>
    show uncancelledEnum (deliverKillCurrentSession cfg r).2.effects
      = if (deliverKillCurrentSession cfg r).1._enumRequest = 0 then []
        else [(deliverKillCurrentSession cfg r).1._enumRequest]
    unfold deliverKillCurrentSession
    cases hq : r.1.queuedKillCurrentSession with
    | nil => exact h
    | cons p rest =>
      obtain ⟨request, current⟩ := p
      by_cases hm : request = r.1._enumRequest ∧ current = r.1._enumCurrent
      · have hk := onKillCurrentSession_match cfg request current
          { r.1 with queuedKillCurrentSession := rest } r.2 hm
        simp only [hk]
        show uncancelledEnum (r.2.effects ++ cleanupOf cfg r.1._enumRequest r.1._enumCurrent) = _
        rw [uncancelledEnum_append, h, track_cleanupOf]
        rfl
      · have hk := onKillCurrentSession_stale cfg request current
          { r.1 with queuedKillCurrentSession := rest } r.2 hm
        simp only [hk]
        exact h

theorem EnumTracked_run (cfg : Int) (steps : List LoaderStep) (r : LoaderState)
    (hnz : tickHandlesNonzero steps) (h : EnumTracked r) :
    EnumTracked (runLoader cfg steps r) := by
  induction steps generalizing r with
  | nil => exact h
  | cons st rest ih =>
    apply ih (st.apply cfg r)
    · intro st2 hmem
      exact hnz st2 (List.mem_cons_of_mem _ hmem)
    · apply EnumTracked_step cfg r st _ h
      intro request he h0
      exact hnz st (List.mem_cons_self _ _) (by rw [he, h0])

theorem cleanupOf_zero (cfg : Int) : cleanupOf cfg 0 0 = [] := by
  simp [cleanupOf]

theorem deliver_cons (cfg : Int) (c r : Int) (t : Bool) (p : Int × Int)
    (rest : List (Int × Int)) (s : State) :
    deliverKillCurrentSession cfg (⟨c, r, t, p :: rest⟩, s)
      = MTProtoConfigLoader.onKillCurrentSession cfg p.1 p.2 ⟨c, r, t, rest⟩ s := by
  obtain ⟨request, current⟩ := p
  rfl

theorem deliverAll_from (cfg : Int) (q : List (Int × Int)) (c r : Int) (t : Bool) (s : State) :
    (deliverKillCurrentSession cfg)^[q.length] (⟨c, r, t, q⟩, s) =
      if (r, c) ∈ q then
        (⟨0, 0, t, []⟩, { s with effects := s.effects ++ cleanupOf cfg r c })
      else (⟨c, r, t, []⟩, s) := by
  induction q generalizing c r s with
  | nil => simp
  | cons p rest ih =>
    rw [List.length_cons, Function.iterate_succ_apply, deliver_cons]
    by_cases hm : p.1 = r ∧ p.2 = c
    · have hp : p = (r, c) := Prod.ext hm.1 hm.2
      have hmem : (r, c) ∈ p :: rest := by rw [hp]; exact List.mem_cons_self _ _
      rw [if_pos hmem, onKillCurrentSession_match cfg p.1 p.2 ⟨c, r, t, rest⟩ s hm]
      show (deliverKillCurrentSession cfg)^[rest.length]
        (⟨0, 0, t, rest⟩, { s with effects := s.effects ++ cleanupOf cfg r c }) = _
      rw [ih]
      by_cases h0 : ((0 : Int), (0 : Int)) ∈ rest
      · rw [if_pos h0, cleanupOf_zero]
        simp
      · rw [if_neg h0]
    · have hp : ¬ (r, c) = p := fun e => hm (by rw [← e]; exact ⟨rfl, rfl⟩)
      rw [onKillCurrentSession_stale cfg p.1 p.2 ⟨c, r, t, rest⟩ s hm]
      by_cases hin : (r, c) ∈ rest
      · rw [if_pos (List.mem_cons_of_mem _ hin), ih, if_pos hin]
      · have hnot : (r, c) ∉ p :: rest := by
          intro hmem
          rcases List.mem_cons.1 hmem with e | e
          · exact hp e
          · exact hin e
        rw [if_neg hnot, ih, if_neg hin]

theorem deliverAll_tracked (cfg : Int) (self : MTProtoConfigLoader) (s : State)
    (h : (self._enumRequest, self._enumCurrent) ∈ self.queuedKillCurrentSession ∨
      (self._enumRequest = 0 ∧ self._enumCurrent = 0)) :
    deliverAllKillCurrentSession cfg (self, s)
      = (⟨0, 0, self._enumDCTimer, []⟩,
         { s with effects := s.effects ++ cleanupOf cfg self._enumRequest self._enumCurrent }) := by
  obtain ⟨c, r, t, q⟩ := self
  show (deliverKillCurrentSession cfg)^[q.length] (⟨c, r, t, q⟩, s) = _
  rw [deliverAll_from]
  by_cases hin : (r, c) ∈ q
  · rw [if_pos hin]
  · rw [if_neg hin]
    rcases h with h | ⟨hr, hc⟩
    · exact absurd h hin
    · simp only at hr hc
      subst hr hc
      rw [cleanupOf_zero]
      simp

theorem done_eq (self : MTProtoConfigLoader) (s : State) :
    self.done s =
      (⟨self._enumCurrent, self._enumRequest, false,
        if self._enumRequest ≠ 0 ∨ self._enumCurrent ≠ 0 then
          self.queuedKillCurrentSession ++ [(self._enumRequest, self._enumCurrent)]
        else self.queuedKillCurrentSession⟩,
       { s with effects := s.effects ++ [Effect.timerStop, Effect.loaded] }) := by
  unfold MTProtoConfigLoader.done
  by_cases h : self._enumRequest ≠ 0 ∨ self._enumCurrent ≠ 0
  · simp [h]
  · simp [h]

theorem done_tracked (self : MTProtoConfigLoader) (s : State) :
    ((self.done s).1._enumRequest, (self.done s).1._enumCurrent)
        ∈ (self.done s).1.queuedKillCurrentSession ∨
      ((self.done s).1._enumRequest = 0 ∧ (self.done s).1._enumCurrent = 0) := by
  rw [done_eq]
  by_cases h : self._enumRequest ≠ 0 ∨ self._enumCurrent ≠ 0
  · left
    simp [h]
  · right
    simp only [not_or, not_not] at h
    exact h

theorem enumDC_loop_at (O : mtpDcOptions) (cur : Int) (v : mtpDcOption)
    (pre post : mtpDcOptions) (h : cur ∉ QMap.keys pre) :
    MTProtoConfigLoader.enumDC.loop O cur (pre ++ (cur, v) :: post) =
      match post with
      | (k1, _) :: _ => k1
      | [] =>
        match O with
        | (k0, _) :: _ => k0
        | [] => cur := by
  induction pre with
  | nil =>
    cases post with
    | nil => simp [MTProtoConfigLoader.enumDC.loop]
    | cons q rest => simp [MTProtoConfigLoader.enumDC.loop]
  | cons p rest ih =>
    obtain ⟨k, w⟩ := p
    have hk : ¬ k = cur := fun e => h (by simp [QMap.keys, e])
    have hrest : cur ∉ QMap.keys rest := fun e => h (by
      unfold QMap.keys at e ⊢
      exact List.mem_cons_of_mem _ e)
    rw [← ih hrest]
    simp [MTProtoConfigLoader.enumDC.loop, hk]

theorem split_at_key (T : mtpDcOptions) (c : Int) (h : c ∈ QMap.keys T) :
    ∃ pre v post, T = pre ++ (c, v) :: post ∧ c ∉ QMap.keys pre := by
  induction T with
  | nil => simp [QMap.keys] at h
  | cons p rest ih =>
    obtain ⟨k, w⟩ := p
    by_cases hk : k = c
    · exact ⟨[], w, rest, by simp [hk], by simp [QMap.keys]⟩
    · have hrest : c ∈ QMap.keys rest := by
        unfold QMap.keys at h ⊢
        rcases List.mem_cons.1 h with e | e
        · exact absurd e.symm hk
        · exact e
      obtain ⟨pre, v, post, hT, hpre⟩ := ih hrest
      refine ⟨(k, w) :: pre, v, post, by simp [hT], ?_⟩
      intro hmem
      unfold QMap.keys at hmem hpre
      rcases List.mem_cons.1 hmem with e | e
      · exact hk e.symm
      · exact hpre e

theorem enumNext_inner (T A B : mtpDcOptions) (c b : Int) (v w : mtpDcOption)
    (hT : T = A ++ (c, v) :: (b, w) :: B) (hA : c ∉ QMap.keys A) : enumNext T c = b := by
  have h := enumDC_loop_at T c v A ((b, w) :: B) hA
  rw [← hT] at h
  exact h

theorem enumNext_last (T A : mtpDcOptions) (c : Int) (v : mtpDcOption)
    (hT : T = A ++ [(c, v)]) (hA : c ∉ QMap.keys A) :
    enumNext T c = (QMap.keys T).headD c := by
  have h := enumDC_loop_at T c v A [] hA
  rw [← hT] at h
  unfold enumNext
  rw [h]
  cases T with
  | nil => rfl
  | cons p rest => rfl

theorem enumNext_mem (T : mtpDcOptions) (c : Int) (h : c ∈ QMap.keys T) :
    enumNext T c ∈ QMap.keys T := by
  obtain ⟨A, v, B, hT, hA⟩ := split_at_key T c h
  cases B with
  | cons q B1 =>
    obtain ⟨b, w⟩ := q
    rw [enumNext_inner T A B1 c b v w hT hA, hT]
    simp [QMap.keys]
  | nil =>
    rw [enumNext_last T A c v hT hA]
    cases T with
    | nil => simp [QMap.keys] at h
    | cons p rest => simp [QMap.keys]

theorem keys_append (A B : mtpDcOptions) : QMap.keys (A ++ B) = QMap.keys A ++ QMap.keys B := by
  simp [QMap.keys]

theorem enumSeq_take (T : mtpDcOptions) (hnd : (QMap.keys T).Nodup) (j : Nat) :
    ∀ (A : mtpDcOptions) (c : Int) (v : mtpDcOption) (B : mtpDcOptions),
      T = A ++ (c, v) :: B → j ≤ T.length →
      enumSeq T c j = (QMap.keys B ++ QMap.keys A ++ [c]).take j := by
  induction j with
  | zero =>
    intro A c v B _ _
    simp [enumSeq]
  | succ j ih =>
    intro A c v B hT hj
    have hA : c ∉ QMap.keys A := by
      intro hmem
      rw [hT, keys_append] at hnd
      have := (List.nodup_append.1 hnd).2.2
      exact this hmem (by simp [QMap.keys])
    have hlen : T.length = A.length + B.length + 1 := by
      rw [hT]
      simp
      omega
    cases B with
    | cons q B1 =>
      obtain ⟨b, w⟩ := q
      have hnext := enumNext_inner T A B1 c b v w hT hA
      have hT2 : T = (A ++ [(c, v)]) ++ (b, w) :: B1 := by
        rw [hT]
        simp
      have hrec := ih (A ++ [(c, v)]) b w B1 hT2 (by omega)
      show enumNext T c :: enumSeq T (enumNext T c) j = _
      rw [hnext, hrec]
      have hl : (QMap.keys B1 ++ QMap.keys (A ++ [(c, v)]) ++ [b])
          = (QMap.keys B1 ++ QMap.keys A ++ [c]) ++ [b] := by
        simp [QMap.keys]
      rw [hl, List.take_append_of_le_length (by
        simp [QMap.keys]
        simp at hlen
        omega)]
      simp [QMap.keys]
    | nil =>
      cases A with
      | nil =>
        have hj0 : j = 0 := by
          simp at hlen
          omega
        subst hj0
        have hnext := enumNext_last T [] c v hT hA
        show enumNext T c :: enumSeq T (enumNext T c) 0 = _
        rw [hnext, hT]
        simp [enumSeq, QMap.keys]
      | cons p A1 =>
        obtain ⟨k0, v0⟩ := p
        have hnext : enumNext T c = k0 := by
          rw [enumNext_last T ((k0, v0) :: A1) c v hT hA, hT]
          simp [QMap.keys]
        have hT2 : T = [] ++ (k0, v0) :: (A1 ++ [(c, v)]) := by
          rw [hT]
          simp
        have hrec := ih [] k0 v0 (A1 ++ [(c, v)]) hT2 (by omega)
        show enumNext T c :: enumSeq T (enumNext T c) j = _
        rw [hnext, hrec]
        have hl : (QMap.keys (A1 ++ [(c, v)]) ++ QMap.keys ([] : mtpDcOptions) ++ [k0])
            = (QMap.keys A1 ++ [c]) ++ [k0] := by
          simp [QMap.keys]
        rw [hl, List.take_append_of_le_length (by
          simp [QMap.keys]
          simp at hlen
          omega)]
        simp [QMap.keys]

theorem enumOrder_split (T pre post : mtpDcOptions) (m : Int) (v : mtpDcOption)
    (hwf : QMap.WF T) (hT : T = pre ++ (m, v) :: post) :
    enumOrder T m = QMap.keys post ++ QMap.keys pre ++ [m] := by
  have hk : QMap.keys T = QMap.keys pre ++ m :: QMap.keys post := by
    rw [hT]
    simp [QMap.keys]
  have hp := QMap.keys_pairwise hwf
  rw [hk, List.pairwise_append, List.pairwise_cons] at hp
  obtain ⟨_, ⟨hpost, _⟩, hcross⟩ := hp
  have hpre : ∀ k ∈ QMap.keys pre, k < m := fun k hkm => hcross k hkm m (List.mem_cons_self _ _)
  have h1 : (QMap.keys pre).filter (fun k => decide (m < k)) = [] := by
    rw [List.filter_eq_nil_iff]
    intro k hkm
    have := hpre k hkm
    simp
    omega
  have h2 : (QMap.keys post).filter (fun k => decide (m < k)) = QMap.keys post := by
    rw [List.filter_eq_self]
    intro k hkm
    simpa using hpost k hkm
  have h3 : (QMap.keys pre).filter (fun k => decide (k < m)) = QMap.keys pre := by
    rw [List.filter_eq_self]
    intro k hkm
    simpa using hpre k hkm
  have h4 : (QMap.keys post).filter (fun k => decide (k < m)) = [] := by
    rw [List.filter_eq_nil_iff]
    intro k hkm
    have := hpost k hkm
    simp
    omega
  unfold enumOrder
  rw [hk, List.filter_append, List.filter_append, List.filter_cons, List.filter_cons, h1, h2, h3,
    h4]
  simp

theorem enumSeq_snoc (T : mtpDcOptions) (j : Nat) (c : Int) :
    enumSeq T c (j + 1) = enumSeq T c j ++ [(enumNext T)^[j + 1] c] := by
  induction j generalizing c with
  | zero => rfl
  | succ j ih =>
    show enumNext T c :: enumSeq T (enumNext T c) (j + 1) = _
    rw [ih (enumNext T c)]
    rfl

theorem enumTargets_append (a b : List Effect) :
    enumTargets (a ++ b) = enumTargets a ++ enumTargets b := by
  unfold enumTargets
  exact List.filterMap_append _ _ _

theorem enumTargets_cleanupOf (cfg request current : Int) :
    enumTargets (cleanupOf cfg request current) = [] := by
  unfold cleanupOf enumTargets
  by_cases hr : request = 0 <;> by_cases hc : current = 0 <;> simp [hr, hc]

theorem tick_moves (cfg request : Int) (self : MTProtoConfigLoader) (s : State)
    (hload : s.loadingConfig = true) (hzero : (0 : Int) ∉ QMap.keys s.cDcOptions)
    (hstart : enumStart self s ∈ QMap.keys s.cDcOptions) :
    (self.enumDC cfg request s).2.loadingConfig = true ∧
    (self.enumDC cfg request s).2.cDcOptions = s.cDcOptions ∧
    enumStart (self.enumDC cfg request s).1 (self.enumDC cfg request s).2
      = enumNext s.cDcOptions (enumStart self s) ∧
    enumTargets (self.enumDC cfg request s).2.effects
      = enumTargets s.effects ++ [cfg + enumNext s.cDcOptions (enumStart self s)] := by
  have hmem := enumNext_mem s.cDcOptions (enumStart self s) hstart
  have hne : ¬ enumNext s.cDcOptions (enumStart self s) = 0 := fun e => hzero (e ▸ hmem)
  rw [enumDC_loading cfg request self s hload]
  refine ⟨hload, rfl, ?_, ?_⟩
  · show (if enumNext s.cDcOptions (enumStart self s) = 0 then s.mainDC
      else enumNext s.cDcOptions (enumStart self s)) = _
    rw [if_neg hne]
  · show enumTargets (s.effects ++ cleanupOf cfg self._enumRequest self._enumCurrent ++ _) = _
    rw [enumTargets_append, enumTargets_append, enumTargets_cleanupOf]
    simp [enumTargets, enumNext]

theorem runTicks_targets (cfg : Int) (requests : List Int) (self : MTProtoConfigLoader)
    (s : State) (hload : s.loadingConfig = true)
    (hzero : (0 : Int) ∉ QMap.keys s.cDcOptions)
    (hstart : enumStart self s ∈ QMap.keys s.cDcOptions) :
    enumTargets (runTicks cfg requests (self, s)).2.effects
      = enumTargets s.effects ++
        (enumSeq s.cDcOptions (enumStart self s) requests.length).map (fun d => cfg + d) := by
  induction requests generalizing self s with
  | nil => simp [runTicks, enumSeq]
  | cons request rest ih =>
    obtain ⟨h1, h2, h3, h4⟩ := tick_moves cfg request self s hload hzero hstart
    show enumTargets (runTicks cfg rest (self.enumDC cfg request s)).2.effects = _
    have hstart2 : enumStart (self.enumDC cfg request s).1 (self.enumDC cfg request s).2
        ∈ QMap.keys (self.enumDC cfg request s).2.cDcOptions := by
      rw [h2, h3]
      exact enumNext_mem _ _ hstart
    rw [ih (self.enumDC cfg request s).1 (self.enumDC cfg request s).2 h1 (by rw [h2]; exact hzero)
      hstart2, h2, h3, h4]
    simp [enumSeq]

theorem load_then_loading (request : Int) (self : MTProtoConfigLoader) (s : State) :
    (self.load request s).2.loadingConfig = true ∧
    (self.load request s).2.cDcOptions = s.cDcOptions ∧
    (self.load request s).2.mainDC = s.mainDC ∧
    (self.load request s).1._enumCurrent = self._enumCurrent ∧
    enumTargets (self.load request s).2.effects = enumTargets s.effects := by
  by_cases h : s.loadingConfig = true
  · simp [MTProtoConfigLoader.load, h]
  · have h2 : s.loadingConfig = false := by simpa using h
    rw [load_not_loading request self s h2]
    refine ⟨rfl, rfl, rfl, rfl, ?_⟩
    show enumTargets (s.effects ++ _) = _
    rw [enumTargets_append]
    simp [enumTargets]

/-- C12, as the code has it: `load()` on a loader that is not loading sets
`loadingConfig`, sends exactly one config request without DC argument (to the
main DC) and starts the failover timer, and leaves `_enumCurrent` and
`_enumRequest` as they were; they are 0 afterwards only when they were 0
before. The first timeout after it moves to the successor of the main DC when
`_enumCurrent` was 0 and to the successor of `_enumCurrent` otherwise. -/
theorem load_starts_loading (cfg request request2 : Int) (self : MTProtoConfigLoader)
    (s : State) (h : s.loadingConfig = false) :
    (self.load request s).2.loadingConfig = true ∧
    (self.load request s).1._enumCurrent = self._enumCurrent ∧
    (self.load request s).1._enumRequest = self._enumRequest ∧
    (self.load request s).1._enumDCTimer = true ∧
    (self.load request s).2.effects
      = s.effects ++ [Effect.sendGetConfig none request, Effect.timerStart] ∧
    configRequests (self.load request s).2.effects = configRequests s.effects + 1 ∧
    ((self.load request s).1.enumDC cfg request2 (self.load request s).2).1._enumCurrent
      = MTProtoConfigLoader.enumDC.loop s.cDcOptions
          (if self._enumCurrent = 0 then s.mainDC else self._enumCurrent) s.cDcOptions := by
  rw [load_not_loading request self s h]
  refine ⟨rfl, rfl, rfl, rfl, rfl, ?_, ?_⟩
  · simp [configRequests, List.filter_append]
  · rw [enumDC_loading _ _ _ _ rfl]
    rfl

/-- C12 at concrete inputs: `load()` on a new loader with the table {1, 2, 3}
and main DC 1; the first timeout then moves to DC 2. -/
theorem load_starts_loading_witness :
    (MTProtoConfigLoader.load 100 MTProtoConfigLoader.new
      { State.initial with mainDC := 1, cDcOptions :=
          [(1, ⟨1, "a", "1.1.1.1", 443⟩), (2, ⟨2, "b", "2.2.2.2", 443⟩),
           (3, ⟨3, "c", "3.3.3.3", 443⟩)] }).2.loadingConfig = true ∧
    (runLoader 10000 [LoaderStep.load 100, LoaderStep.tick 101]
      (MTProtoConfigLoader.new, { State.initial with mainDC := 1, cDcOptions :=
          [(1, ⟨1, "a", "1.1.1.1", 443⟩), (2, ⟨2, "b", "2.2.2.2", 443⟩),
           (3, ⟨3, "c", "3.3.3.3", 443⟩)] })).1._enumCurrent = 2 :=
  ⟨(load_starts_loading 10000 100 101 MTProtoConfigLoader.new _ rfl).1, by decide⟩

/-- C12 fails as stated: with the table {1, 2, 3} and main DC 1, after
`load()`, one timeout (request 101 to DC 2) and the failure continuation the
loader is not loading; the next `load()` leaves `_enumCurrent` = 2 and
`_enumRequest` = 101, and the first timeout after it moves on to DC 3. -/
theorem load_starts_loading_counterexample :
    (runLoader 10000 [LoaderStep.load 100, LoaderStep.tick 101, LoaderStep.failure]
      (MTProtoConfigLoader.new, { State.initial with mainDC := 1, cDcOptions :=
          [(1, ⟨1, "a", "1.1.1.1", 443⟩), (2, ⟨2, "b", "2.2.2.2", 443⟩),
           (3, ⟨3, "c", "3.3.3.3", 443⟩)] })).2.loadingConfig = false ∧
    (runLoader 10000 [LoaderStep.load 100, LoaderStep.tick 101, LoaderStep.failure,
        LoaderStep.load 102]
      (MTProtoConfigLoader.new, { State.initial with mainDC := 1, cDcOptions :=
          [(1, ⟨1, "a", "1.1.1.1", 443⟩), (2, ⟨2, "b", "2.2.2.2", 443⟩),
           (3, ⟨3, "c", "3.3.3.3", 443⟩)] })).2.loadingConfig = true ∧
    (runLoader 10000 [LoaderStep.load 100, LoaderStep.tick 101, LoaderStep.failure,
        LoaderStep.load 102]
      (MTProtoConfigLoader.new, { State.initial with mainDC := 1, cDcOptions :=
          [(1, ⟨1, "a", "1.1.1.1", 443⟩), (2, ⟨2, "b", "2.2.2.2", 443⟩),
           (3, ⟨3, "c", "3.3.3.3", 443⟩)] })).1._enumCurrent = 2 ∧
    (runLoader 10000 [LoaderStep.load 100, LoaderStep.tick 101, LoaderStep.failure,
        LoaderStep.load 102]
      (MTProtoConfigLoader.new, { State.initial with mainDC := 1, cDcOptions :=
          [(1, ⟨1, "a", "1.1.1.1", 443⟩), (2, ⟨2, "b", "2.2.2.2", 443⟩),
           (3, ⟨3, "c", "3.3.3.3", 443⟩)] })).1._enumRequest = 101 ∧
    enumTargets (runLoader 10000 [LoaderStep.load 100, LoaderStep.tick 101, LoaderStep.failure,
        LoaderStep.load 102, LoaderStep.tick 103]
      (MTProtoConfigLoader.new, { State.initial with mainDC := 1, cDcOptions :=
          [(1, ⟨1, "a", "1.1.1.1", 443⟩), (2, ⟨2, "b", "2.2.2.2", 443⟩),
           (3, ⟨3, "c", "3.3.3.3", 443⟩)] })).2.effects = [10002, 10003] := by
  decide

/-- C13, as the code has it: `loaded()` is emitted exactly once by every
success continuation (through `done()`) and by no other step: not by the
failure continuation, which only clears `loadingConfig`, nor by `load()`, a
timeout or a delivered cleanup. In every run of the loader the number of
`loaded()` emissions is the number of success continuations. -/
theorem loaded_per_success_continuation (cfg : Int) (steps : List LoaderStep)
    (r : LoaderState) (data : MTPDconfig) :
    loadedCount (runLoader cfg steps r).2.effects
      = loadedCount r.2.effects + successSteps steps ∧
    loadedCount (configLoaded data r.1 r.2).2.effects = loadedCount r.2.effects + 1 ∧
    (configFailed r.2).2.effects = r.2.effects ∧
    (configFailed r.2).2 = { r.2 with loadingConfig := false } := by
  refine ⟨loadedCount_run cfg steps r, ?_, rfl, rfl⟩
  have h := loadedCount_step cfg r (LoaderStep.success data)
  simpa [successSteps] using h

/-- C13 at concrete inputs: a cycle with one timeout that ends with a
success continuation and the delivery of its cleanup emits `loaded()` once. -/
theorem loaded_per_success_continuation_witness :
    loadedCount (runLoader 10000 [LoaderStep.load 100, LoaderStep.tick 101,
        LoaderStep.success ⟨200, 0, false, 1, [⟨1, "a", "1.1.1.1", 443⟩]⟩, LoaderStep.cleanup]
      (MTProtoConfigLoader.new, { State.initial with mainDC := 1, cDcOptions :=
        [(1, ⟨1, "a", "1.1.1.1", 443⟩)] })).2.effects = 1 ∧
    loadedCount (runLoader 10000 [LoaderStep.load 100, LoaderStep.tick 101,
        LoaderStep.success ⟨200, 0, false, 1, [⟨1, "a", "1.1.1.1", 443⟩]⟩, LoaderStep.cleanup]
      (MTProtoConfigLoader.new, { State.initial with mainDC := 1, cDcOptions :=
        [(1, ⟨1, "a", "1.1.1.1", 443⟩)] })).2.effects
      = loadedCount ((MTProtoConfigLoader.new, { State.initial with mainDC := 1, cDcOptions :=
          [(1, ⟨1, "a", "1.1.1.1", 443⟩)] }) : LoaderState).2.effects
        + successSteps [LoaderStep.load 100, LoaderStep.tick 101,
            LoaderStep.success ⟨200, 0, false, 1, [⟨1, "a", "1.1.1.1", 443⟩]⟩,
            LoaderStep.cleanup] :=
  ⟨by decide,
   (loaded_per_success_continuation 10000 _ _ ⟨200, 0, false, 1, []⟩).1⟩

/-- C13 fails as stated: a cycle that ends with the failure continuation
emits no `loaded()`; and a cycle in which the request of the timeout succeeds
and, after the delivery of its cleanup, the request to the main DC, which
nothing cancels, succeeds as well emits it twice. -/
theorem loaded_per_success_continuation_counterexample :
    loadedCount (runLoader 10000 [LoaderStep.load 100, LoaderStep.failure]
      (MTProtoConfigLoader.new, { State.initial with mainDC := 1, cDcOptions :=
        [(1, ⟨1, "a", "1.1.1.1", 443⟩)] })).2.effects = 0 ∧
    (runLoader 10000 [LoaderStep.load 100, LoaderStep.failure]
      (MTProtoConfigLoader.new, { State.initial with mainDC := 1, cDcOptions :=
        [(1, ⟨1, "a", "1.1.1.1", 443⟩)] })).2.loadingConfig = false ∧
    (runLoader 10000 [LoaderStep.load 100, LoaderStep.tick 101,
        LoaderStep.success ⟨200, 0, false, 1, [⟨1, "a", "1.1.1.1", 443⟩]⟩,
        LoaderStep.cleanup,
        LoaderStep.success ⟨200, 0, false, 1, [⟨1, "a", "1.1.1.1", 443⟩]⟩]
      (MTProtoConfigLoader.new, { State.initial with mainDC := 1, cDcOptions :=
        [(1, ⟨1, "a", "1.1.1.1", 443⟩)] })).2.effects
      = [Effect.sendGetConfig none 100, Effect.timerStart,
         Effect.sendGetConfig (some 10001) 101, Effect.timerStart,
         Effect.writeSettings, Effect.timerStop, Effect.loaded,
         Effect.cancel 101, Effect.killSession 10001,
         Effect.writeSettings, Effect.timerStop, Effect.loaded] ∧
    loadedCount (runLoader 10000 [LoaderStep.load 100, LoaderStep.tick 101,
        LoaderStep.success ⟨200, 0, false, 1, [⟨1, "a", "1.1.1.1", 443⟩]⟩,
        LoaderStep.cleanup,
        LoaderStep.success ⟨200, 0, false, 1, [⟨1, "a", "1.1.1.1", 443⟩]⟩]
      (MTProtoConfigLoader.new, { State.initial with mainDC := 1, cDcOptions :=
        [(1, ⟨1, "a", "1.1.1.1", 443⟩)] })).2.effects = 2 := by
  decide

/-- C14: after the success continuation `configLoaded(config)`,
`loadingConfig` is false, `mtpNeedConfig()` returns false, the DC-options
table is the one `mtpUpdateDcOptions(config.dc_options)` gives from the
previous table, `cMaxGroupCount` is `config.chat_size_max`, and `done()` has
run: the timer is stopped, the loader is as `done()` leaves it, and the calls
made are the restarts of the update, `Local::writeSettings()`, the timer stop
and the emission of `loaded()`. With the table {1:(a,1.1.1.1,443)} and
`config.dc_options = [(1,a,1.1.1.1,443)]` no DC is restarted. -/
theorem configLoaded_spec (data : MTPDconfig) (self : MTProtoConfigLoader) (s : State) :
    (configLoaded data self s).2.loadingConfig = false ∧
    mtpNeedConfig (configLoaded data self s).2 = false ∧
    (configLoaded data self s).2.cDcOptions
      = (mtpUpdateDcOptions data.vdc_options s).cDcOptions ∧
    (configLoaded data self s).2.cMaxGroupCount = data.vchat_size_max ∧
    (configLoaded data self s).1 = (self.done s).1 ∧
    (configLoaded data self s).1._enumDCTimer = false ∧
    (configLoaded data self s).2.effects
      = s.effects ++ (restartSet data.vdc_options s).map Effect.restart ++
        [Effect.writeSettings, Effect.timerStop, Effect.loaded] ∧
    (s.cDcOptions = [(1, ⟨1, "a", "1.1.1.1", 443⟩)] →
      data.vdc_options = [⟨1, "a", "1.1.1.1", 443⟩] →
      restartSet data.vdc_options s = [] ∧
      (configLoaded data self s).2.cDcOptions = [(1, ⟨1, "a", "1.1.1.1", 443⟩)] ∧
      (configLoaded data self s).2.effects
        = s.effects ++ [Effect.writeSettings, Effect.timerStop, Effect.loaded]) := by
  refine ⟨rfl, rfl, rfl, rfl, rfl, done_stops_timer self _, configLoaded_effects data self s, ?_⟩
  intro hT hL
  have hr : restartSet data.vdc_options s = [] := by
    unfold restartSet
    rw [hT, hL]
    decide
  refine ⟨hr, ?_, ?_⟩
  · show (mtpUpdateDcOptions.loop data.vdc_options [] [] s.cDcOptions).2.2 = _
    rw [hT, hL]
    decide
  · rw [configLoaded_effects, hr]
    simp

/-- C14 at concrete inputs: the scenario of the table {1:(a,1.1.1.1,443)},
`load()` and the success continuation with the same option for DC 1 and
`chat_size_max` 200. -/
theorem configLoaded_spec_witness :
    mtpNeedConfig (runLoader 10000 [LoaderStep.load 100,
        LoaderStep.success ⟨200, 0, false, 1, [⟨1, "a", "1.1.1.1", 443⟩]⟩]
      (MTProtoConfigLoader.new, { State.initial with mainDC := 1, cDcOptions :=
        [(1, ⟨1, "a", "1.1.1.1", 443⟩)] })).2 = false ∧
    (runLoader 10000 [LoaderStep.load 100,
        LoaderStep.success ⟨200, 0, false, 1, [⟨1, "a", "1.1.1.1", 443⟩]⟩]
      (MTProtoConfigLoader.new, { State.initial with mainDC := 1, cDcOptions :=
        [(1, ⟨1, "a", "1.1.1.1", 443⟩)] })).2.effects
      = [Effect.sendGetConfig none 100, Effect.timerStart, Effect.writeSettings,
         Effect.timerStop, Effect.loaded] ∧
    restartSet (⟨200, 0, false, 1, [⟨1, "a", "1.1.1.1", 443⟩]⟩ : MTPDconfig).vdc_options
      { State.initial with mainDC := 1, cDcOptions := [(1, ⟨1, "a", "1.1.1.1", 443⟩)] } = [] :=
  ⟨by decide, by decide,
   ((configLoaded_spec ⟨200, 0, false, 1, [⟨1, "a", "1.1.1.1", 443⟩]⟩ MTProtoConfigLoader.new
      { State.initial with mainDC := 1, cDcOptions := [(1, ⟨1, "a", "1.1.1.1", 443⟩)] }).2.2.2.2.2.2.2
      rfl rfl).1⟩

/-- C15, as the code has it: with a table that holds only DC 1, main DC 1,
no config loaded yet and no DC being enumerated: after `load()` and the
failure continuation a timeout does nothing, because `loadingConfig` is
false: `_enumCurrent` stays 0 and no request is sent. A timeout that comes
after `load()` while the load is in progress sets `_enumCurrent` to DC 1 and
sends a config request to DC 1 (`MTP::cfg + 1`). In both orders
`mtpNeedConfig()` still returns true after the failure continuation. -/
theorem failure_then_timeout (cfg request request2 : Int) (self : MTProtoConfigLoader)
    (s : State) (v : mtpDcOption)
    (hT : s.cDcOptions = [(1, v)]) (hmain : s.mainDC = 1)
    (hfresh : s.configLoadedOnce = false) (hidle : s.loadingConfig = false)
    (hcur : self._enumCurrent = 0) (hreq : self._enumRequest = 0) :
    runLoader cfg [LoaderStep.load request, LoaderStep.failure, LoaderStep.tick request2] (self, s)
      = runLoader cfg [LoaderStep.load request, LoaderStep.failure] (self, s) ∧
    (runLoader cfg [LoaderStep.load request, LoaderStep.failure, LoaderStep.tick request2]
      (self, s)).1._enumCurrent = 0 ∧
    (runLoader cfg [LoaderStep.load request, LoaderStep.failure, LoaderStep.tick request2]
      (self, s)).2.effects = s.effects ++ [Effect.sendGetConfig none request, Effect.timerStart] ∧
    mtpNeedConfig (runLoader cfg [LoaderStep.load request, LoaderStep.failure,
      LoaderStep.tick request2] (self, s)).2 = true ∧
    (runLoader cfg [LoaderStep.load request, LoaderStep.tick request2, LoaderStep.failure]
      (self, s)).1._enumCurrent = 1 ∧
    (runLoader cfg [LoaderStep.load request, LoaderStep.tick request2, LoaderStep.failure]
      (self, s)).2.effects = s.effects ++ [Effect.sendGetConfig none request, Effect.timerStart,
        Effect.sendGetConfig (some (cfg + 1)) request2, Effect.timerStart] ∧
    mtpNeedConfig (runLoader cfg [LoaderStep.load request, LoaderStep.tick request2,
      LoaderStep.failure] (self, s)).2 = true := by
  have hload := load_not_loading request self s hidle
  have hA : runLoader cfg [LoaderStep.load request, LoaderStep.failure] (self, s)
      = ({ self with _enumDCTimer := true },
         { s with loadingConfig := false,
                  effects := s.effects ++ [Effect.sendGetConfig none request, Effect.timerStart] }) := by
    show ((self.load request s).1, (configFailed (self.load request s).2).2) = _
    rw [hload]
    rfl
  have hB : runLoader cfg [LoaderStep.load request, LoaderStep.failure, LoaderStep.tick request2]
      (self, s) = runLoader cfg [LoaderStep.load request, LoaderStep.failure] (self, s) := by
    show (runLoader cfg [LoaderStep.load request, LoaderStep.failure] (self, s)).1.enumDC cfg
      request2 (runLoader cfg [LoaderStep.load request, LoaderStep.failure] (self, s)).2 = _
    rw [hA]
    exact enumDC_not_loading _ _ _ _ rfl
  have hC : runLoader cfg [LoaderStep.load request, LoaderStep.tick request2, LoaderStep.failure]
      (self, s)
      = ({ self with _enumCurrent := 1, _enumRequest := request2, _enumDCTimer := true },
         { s with loadingConfig := false,
                  effects := s.effects ++ [Effect.sendGetConfig none request, Effect.timerStart,
                    Effect.sendGetConfig (some (cfg + 1)) request2, Effect.timerStart] }) := by
    show (((self.load request s).1.enumDC cfg request2 (self.load request s).2).1,
      (configFailed ((self.load request s).1.enumDC cfg request2 (self.load request s).2).2).2) = _
    rw [hload, enumDC_loading _ _ _ _ rfl]
    simp [configFailed, enumStart, cleanupOf, hcur, hreq, hT, hmain,
      MTProtoConfigLoader.enumDC.loop]
  rw [hB, hA, hC]
  refine ⟨rfl, hcur, rfl, ?_, rfl, rfl, ?_⟩
  · simp [mtpNeedConfig, hfresh]
  · simp [mtpNeedConfig, hfresh]

/-- C15 at concrete inputs: the scenario on a new loader. -/
theorem failure_then_timeout_witness :
    runLoader 10000 [LoaderStep.load 100, LoaderStep.failure, LoaderStep.tick 101]
      (MTProtoConfigLoader.new, { State.initial with mainDC := 1, cDcOptions :=
        [(1, ⟨1, "a", "1.1.1.1", 443⟩)] })
      = runLoader 10000 [LoaderStep.load 100, LoaderStep.failure]
          (MTProtoConfigLoader.new, { State.initial with mainDC := 1, cDcOptions :=
            [(1, ⟨1, "a", "1.1.1.1", 443⟩)] }) ∧
    enumTargets (runLoader 10000 [LoaderStep.load 100, LoaderStep.tick 101, LoaderStep.failure]
      (MTProtoConfigLoader.new, { State.initial with mainDC := 1, cDcOptions :=
        [(1, ⟨1, "a", "1.1.1.1", 443⟩)] })).2.effects = [10001] :=
  ⟨(failure_then_timeout 10000 100 101 MTProtoConfigLoader.new
      { State.initial with mainDC := 1, cDcOptions := [(1, ⟨1, "a", "1.1.1.1", 443⟩)] }
      ⟨1, "a", "1.1.1.1", 443⟩ rfl rfl rfl rfl rfl rfl).1,
   by decide⟩

/-- C15 fails as stated: in the scenario, after `load()` and the failure
continuation the timeout leaves `_enumCurrent` at 0 and sends nothing: the
only config request of the run is the one of `load()`. -/
theorem failure_then_timeout_counterexample :
    (runLoader 10000 [LoaderStep.load 100, LoaderStep.failure, LoaderStep.tick 101]
      (MTProtoConfigLoader.new, { State.initial with mainDC := 1, cDcOptions :=
        [(1, ⟨1, "a", "1.1.1.1", 443⟩)] })).1._enumCurrent = 0 ∧
    (runLoader 10000 [LoaderStep.load 100, LoaderStep.failure, LoaderStep.tick 101]
      (MTProtoConfigLoader.new, { State.initial with mainDC := 1, cDcOptions :=
        [(1, ⟨1, "a", "1.1.1.1", 443⟩)] })).2.effects
      = [Effect.sendGetConfig none 100, Effect.timerStart] ∧
    enumTargets (runLoader 10000 [LoaderStep.load 100, LoaderStep.failure, LoaderStep.tick 101]
      (MTProtoConfigLoader.new, { State.initial with mainDC := 1, cDcOptions :=
        [(1, ⟨1, "a", "1.1.1.1", 443⟩)] })).2.effects = [] ∧
    mtpNeedConfig (runLoader 10000 [LoaderStep.load 100, LoaderStep.failure, LoaderStep.tick 101]
      (MTProtoConfigLoader.new, { State.initial with mainDC := 1, cDcOptions :=
        [(1, ⟨1, "a", "1.1.1.1", 443⟩)] })).2 = true := by
  decide

/-- C16, as the code has it: for a table of DC ids none of which is 0, the
value `enumDC` reads as "no DC", that holds the main DC, the timeouts that
follow a `load()` made
with `_enumCurrent` = 0, one for each id of the table and no continuation in
between, send their config requests to the ids of the table in ascending
cyclic order, beginning with the successor of the main DC and ending with the
main DC: every id of the table exactly once. The timeout after them sends to
the same DC as the first one. -/
theorem enumeration_covers_table (cfg request last : Int) (requests : List Int)
    (self : MTProtoConfigLoader) (s : State)
    (hwf : QMap.WF s.cDcOptions) (hzero : QMap.constFind 0 s.cDcOptions = none)
    (hmain : ∃ v, QMap.constFind s.mainDC s.cDcOptions = some v)
    (hcur : self._enumCurrent = 0) (hlen : requests.length = s.cDcOptions.length) :
    enumTargets (runTicks cfg requests (self.load request s)).2.effects
      = enumTargets s.effects ++ (enumOrder s.cDcOptions s.mainDC).map (fun d => cfg + d) ∧
    (enumOrder s.cDcOptions s.mainDC).Nodup ∧
    (enumOrder s.cDcOptions s.mainDC).Perm (QMap.keys s.cDcOptions) ∧
    (enumOrder s.cDcOptions s.mainDC).length = requests.length ∧
    ∃ first, (enumOrder s.cDcOptions s.mainDC).head? = some first ∧
      enumTargets (runTicks cfg (requests ++ [last]) (self.load request s)).2.effects
        = enumTargets s.effects ++
          (enumOrder s.cDcOptions s.mainDC ++ [first]).map (fun d => cfg + d) := by
  have hmem : s.mainDC ∈ QMap.keys s.cDcOptions := by
    rw [QMap.mem_keys_iff]
    obtain ⟨v, hv⟩ := hmain
    simp [hv]
  have hz : (0 : Int) ∉ QMap.keys s.cDcOptions := by
    rw [QMap.mem_keys_iff, hzero]
    simp
  have hnd : (QMap.keys s.cDcOptions).Nodup :=
    List.Pairwise.imp (fun h => ne_of_lt h) (QMap.keys_pairwise hwf)
  obtain ⟨pre, v, post, hT, _⟩ := split_at_key s.cDcOptions s.mainDC hmem
  have hord := enumOrder_split s.cDcOptions pre post s.mainDC v hwf hT
  have hlenT : s.cDcOptions.length = (pre.length + post.length) + 1 := by
    rw [hT]
    simp
    omega
  have hordlen : (enumOrder s.cDcOptions s.mainDC).length = s.cDcOptions.length := by
    rw [hord, hlenT]
    simp [QMap.keys]
    omega
  have hseq : enumSeq s.cDcOptions s.mainDC s.cDcOptions.length
      = enumOrder s.cDcOptions s.mainDC := by
    rw [enumSeq_take s.cDcOptions hnd s.cDcOptions.length pre s.mainDC v post hT (le_refl _),
      ← hord, List.take_of_length_le (by rw [hordlen])]
  have hperm : (enumOrder s.cDcOptions s.mainDC).Perm (QMap.keys s.cDcOptions) := by
    have hk : QMap.keys s.cDcOptions = (QMap.keys pre ++ [s.mainDC]) ++ QMap.keys post := by
      rw [hT]
      simp [QMap.keys]
    rw [hord, hk, List.append_assoc]
    exact List.perm_append_comm
  obtain ⟨hl1, hl2, hl3, hl4, hl5⟩ := load_then_loading request self s
  have hstart : enumStart (self.load request s).1 (self.load request s).2 = s.mainDC := by
    unfold enumStart
    rw [hl4, hcur, hl3]
    simp
  have hrun : ∀ reqs : List Int,
      enumTargets (runTicks cfg reqs (self.load request s)).2.effects
        = enumTargets s.effects ++
          (enumSeq s.cDcOptions s.mainDC reqs.length).map (fun d => cfg + d) := by
    intro reqs
    have h := runTicks_targets cfg reqs (self.load request s).1 (self.load request s).2 hl1
      (by rw [hl2]; exact hz) (by rw [hl2, hstart]; exact hmem)
    rw [hl2, hstart, hl5] at h
    exact h
  have hback : (enumNext s.cDcOptions)^[s.cDcOptions.length] s.mainDC = s.mainDC := by
    have h1 := enumSeq_snoc s.cDcOptions (pre.length + post.length) s.mainDC
    rw [← hlenT, hseq, hord] at h1
    have h2 := (List.append_inj' h1 rfl).2
    simp only [List.cons.injEq, and_true] at h2
    exact h2.symm
  have hfirst : (enumOrder s.cDcOptions s.mainDC).head?
      = some (enumNext s.cDcOptions s.mainDC) := by
    rw [← hseq, hlenT]
    rfl
  refine ⟨?_, (hperm.nodup_iff).2 hnd, hperm, by rw [hordlen, hlen], ?_⟩
  · rw [hrun requests, hlen, hseq]
  · refine ⟨enumNext s.cDcOptions s.mainDC, hfirst, ?_⟩
    rw [hrun (requests ++ [last]), List.length_append, hlen]
    show _ ++ (enumSeq s.cDcOptions s.mainDC (s.cDcOptions.length + 1)).map _ = _
    rw [enumSeq_snoc, hseq, Function.iterate_succ_apply', hback]

/-- C16 at concrete inputs: with the table {1, 2, 3} and main DC 1 the three
timeouts after `load()` send to DC 2, DC 3 and DC 1, and the fourth to DC 2. -/
theorem enumeration_covers_table_witness :
    enumTargets (runTicks 10000 [101, 102, 103]
      (MTProtoConfigLoader.load 100 MTProtoConfigLoader.new
        { State.initial with mainDC := 1, cDcOptions :=
          [(1, ⟨1, "a", "1.1.1.1", 443⟩), (2, ⟨2, "b", "2.2.2.2", 443⟩),
           (3, ⟨3, "c", "3.3.3.3", 443⟩)] })).2.effects = [10002, 10003, 10001] ∧
    enumOrder [(1, ⟨1, "a", "1.1.1.1", 443⟩), (2, ⟨2, "b", "2.2.2.2", 443⟩),
      (3, ⟨3, "c", "3.3.3.3", 443⟩)] 1 = [2, 3, 1] ∧
    enumTargets (runTicks 10000 [101, 102, 103, 104]
      (MTProtoConfigLoader.load 100 MTProtoConfigLoader.new
        { State.initial with mainDC := 1, cDcOptions :=
          [(1, ⟨1, "a", "1.1.1.1", 443⟩), (2, ⟨2, "b", "2.2.2.2", 443⟩),
           (3, ⟨3, "c", "3.3.3.3", 443⟩)] })).2.effects = [10002, 10003, 10001, 10002] ∧
    enumTargets (runTicks 10000 [101, 102, 103]
      (MTProtoConfigLoader.load 100 MTProtoConfigLoader.new
        { State.initial with mainDC := 1, cDcOptions :=
          [(1, ⟨1, "a", "1.1.1.1", 443⟩), (2, ⟨2, "b", "2.2.2.2", 443⟩),
           (3, ⟨3, "c", "3.3.3.3", 443⟩)] })).2.effects
      = enumTargets ({ State.initial with mainDC := 1, cDcOptions :=
          [(1, ⟨1, "a", "1.1.1.1", 443⟩), (2, ⟨2, "b", "2.2.2.2", 443⟩),
           (3, ⟨3, "c", "3.3.3.3", 443⟩)] } : State).effects ++
        (enumOrder ({ State.initial with mainDC := 1, cDcOptions :=
          [(1, ⟨1, "a", "1.1.1.1", 443⟩), (2, ⟨2, "b", "2.2.2.2", 443⟩),
           (3, ⟨3, "c", "3.3.3.3", 443⟩)] } : State).cDcOptions
          ({ State.initial with mainDC := 1, cDcOptions :=
          [(1, ⟨1, "a", "1.1.1.1", 443⟩), (2, ⟨2, "b", "2.2.2.2", 443⟩),
           (3, ⟨3, "c", "3.3.3.3", 443⟩)] } : State).mainDC).map (fun d => 10000 + d) :=
  ⟨by decide, by decide, by decide,
   (enumeration_covers_table 10000 100 104 [101, 102, 103] MTProtoConfigLoader.new
      { State.initial with mainDC := 1, cDcOptions :=
          [(1, ⟨1, "a", "1.1.1.1", 443⟩), (2, ⟨2, "b", "2.2.2.2", 443⟩),
           (3, ⟨3, "c", "3.3.3.3", 443⟩)] }
      (by decide) (by decide) ⟨⟨1, "a", "1.1.1.1", 443⟩, by decide⟩ rfl rfl).1⟩

/-- C16 fails as stated: the table {0, 1}, which `mtpUpdateDcOptions` stores
as received, holds the main DC 1, and the two timeouts after `load()` both
send to DC 0 and none to DC 1: the first moves from DC 1 to DC 0, and the
second reads `_enumCurrent` = 0 as "no DC" and starts from the main DC
again. -/
theorem enumeration_covers_table_counterexample :
    (mtpUpdateDcOptions [⟨0, "z", "0.0.0.0", 443⟩, ⟨1, "a", "1.1.1.1", 443⟩]
      { State.initial with mainDC := 1 }).cDcOptions
      = [(0, ⟨0, "z", "0.0.0.0", 443⟩), (1, ⟨1, "a", "1.1.1.1", 443⟩)] ∧
    QMap.WF ([(0, ⟨0, "z", "0.0.0.0", 443⟩), (1, ⟨1, "a", "1.1.1.1", 443⟩)] : mtpDcOptions) ∧
    QMap.constFind 1 ([(0, ⟨0, "z", "0.0.0.0", 443⟩), (1, ⟨1, "a", "1.1.1.1", 443⟩)]
      : mtpDcOptions) = some ⟨1, "a", "1.1.1.1", 443⟩ ∧
    enumTargets (runTicks 10000 [101, 102]
      (MTProtoConfigLoader.load 100 MTProtoConfigLoader.new
        { State.initial with mainDC := 1, cDcOptions :=
          [(0, ⟨0, "z", "0.0.0.0", 443⟩), (1, ⟨1, "a", "1.1.1.1", 443⟩)] })).2.effects
      = [10000, 10000] ∧
    (runTicks 10000 [101, 102]
      (MTProtoConfigLoader.load 100 MTProtoConfigLoader.new
        { State.initial with mainDC := 1, cDcOptions :=
          [(0, ⟨0, "z", "0.0.0.0", 443⟩), (1, ⟨1, "a", "1.1.1.1", 443⟩)] })).1._enumCurrent
      = 0 ∧
    enumOrder [(0, ⟨0, "z", "0.0.0.0", 443⟩), (1, ⟨1, "a", "1.1.1.1", 443⟩)] 1 = [0, 1] := by
  decide

/-- C17, as the code has it: a timeout taken while loading with an empty
DC-options table behaves like any other timeout: it cancels the tracked
request if there is one, keeps the enumerated DC (the main DC when none was
enumerated), sends another config request to that DC and restarts the
failover timer; `loadingConfig` stays true and no `loaded()` is emitted. -/
theorem timeout_with_empty_table (cfg request : Int) (self : MTProtoConfigLoader) (s : State)
    (hload : s.loadingConfig = true) (hT : s.cDcOptions = []) :
    (self.enumDC cfg request s).1._enumCurrent = enumStart self s ∧
    (self.enumDC cfg request s).1._enumRequest = request ∧
    (self.enumDC cfg request s).1._enumDCTimer = true ∧
    (self.enumDC cfg request s).2.loadingConfig = true ∧
    (self.enumDC cfg request s).2.effects
      = s.effects ++ cleanupOf cfg self._enumRequest self._enumCurrent ++
        [Effect.sendGetConfig (some (cfg + enumStart self s)) request, Effect.timerStart] ∧
    loadedCount (self.enumDC cfg request s).2.effects = loadedCount s.effects := by
  have hloop : MTProtoConfigLoader.enumDC.loop s.cDcOptions (enumStart self s) s.cDcOptions
      = enumStart self s := by
    rw [hT]
    rfl
  rw [enumDC_loading cfg request self s hload, hloop]
  refine ⟨rfl, rfl, rfl, hload, rfl, ?_⟩
  show loadedCount (s.effects ++ cleanupOf cfg self._enumRequest self._enumCurrent ++ _) = _
  rw [loadedCount_append, loadedCount_append, loadedCount_cleanupOf]
  simp [loadedCount]

/-- C17 at concrete inputs: a new loader, an empty table and main DC 2. -/
theorem timeout_with_empty_table_witness :
    (MTProtoConfigLoader.enumDC 10000 101 ⟨0, 0, true, []⟩
      { State.initial with loadingConfig := true }).2.effects
      = [Effect.sendGetConfig (some 10002) 101, Effect.timerStart] ∧
    (MTProtoConfigLoader.enumDC 10000 101 ⟨0, 0, true, []⟩
      { State.initial with loadingConfig := true }).2.loadingConfig = true :=
  ⟨by decide,
   (timeout_with_empty_table 10000 101 ⟨0, 0, true, []⟩
     { State.initial with loadingConfig := true } rfl rfl).2.2.2.1⟩

/-- C17 fails as stated: with an empty table and main DC 2, the two timeouts
after `load()` each send a config request to DC 2 and restart the timer; the
loader is still loading and has emitted no `loaded()`. -/
theorem timeout_with_empty_table_counterexample :
    (runLoader 10000 [LoaderStep.load 100] (MTProtoConfigLoader.new, State.initial)).2.cDcOptions
      = [] ∧
    (runLoader 10000 [LoaderStep.load 100, LoaderStep.tick 101, LoaderStep.tick 102]
      (MTProtoConfigLoader.new, State.initial)).2.effects
      = [Effect.sendGetConfig none 100, Effect.timerStart,
         Effect.sendGetConfig (some 10002) 101, Effect.timerStart,
         Effect.cancel 101, Effect.killSession 10002,
         Effect.sendGetConfig (some 10002) 102, Effect.timerStart] ∧
    (runLoader 10000 [LoaderStep.load 100, LoaderStep.tick 101, LoaderStep.tick 102]
      (MTProtoConfigLoader.new, State.initial)).2.loadingConfig = true ∧
    (runLoader 10000 [LoaderStep.load 100, LoaderStep.tick 101, LoaderStep.tick 102]
      (MTProtoConfigLoader.new, State.initial)).1._enumDCTimer = true ∧
    loadedCount (runLoader 10000 [LoaderStep.load 100, LoaderStep.tick 101, LoaderStep.tick 102]
      (MTProtoConfigLoader.new, State.initial)).2.effects = 0 := by
  decide

/-- C18: `done()` stops the failover timer, and once the queued cleanups
have been delivered `_enumRequest` and `_enumCurrent` are 0, the tracked
request, if any, has been cancelled once and the session of the tracked DC,
if any, has been killed once, whatever cleanups were queued before. Calling
`done()` twice in a row leads to the same loader state and to the same
cancel and killSession calls as calling it once. -/
theorem done_then_cleanup (cfg : Int) (self : MTProtoConfigLoader) (s : State) :
    (self.done s).1._enumDCTimer = false ∧
    deliverAllKillCurrentSession cfg (self.done s)
      = ({ _enumCurrent := 0, _enumRequest := 0, _enumDCTimer := false,
           queuedKillCurrentSession := [] },
         { s with effects := s.effects ++ [Effect.timerStop, Effect.loaded] ++
            cleanupOf cfg self._enumRequest self._enumCurrent }) ∧
    (deliverAllKillCurrentSession cfg ((self.done s).1.done (self.done s).2)).1
      = (deliverAllKillCurrentSession cfg (self.done s)).1 ∧
    (deliverAllKillCurrentSession cfg ((self.done s).1.done (self.done s).2)).2.effects
      = s.effects ++ [Effect.timerStop, Effect.loaded, Effect.timerStop, Effect.loaded] ++
          cleanupOf cfg self._enumRequest self._enumCurrent ∧
    cleanupCalls (deliverAllKillCurrentSession cfg
        ((self.done s).1.done (self.done s).2)).2.effects
      = cleanupCalls (deliverAllKillCurrentSession cfg (self.done s)).2.effects := by
  have h1 : deliverAllKillCurrentSession cfg (self.done s)
      = (⟨0, 0, false, []⟩,
         { s with effects := s.effects ++ [Effect.timerStop, Effect.loaded] ++
            cleanupOf cfg self._enumRequest self._enumCurrent }) := by
    rw [deliverAll_tracked cfg _ _ (done_tracked self s), done_eq]
  have h2 : deliverAllKillCurrentSession cfg ((self.done s).1.done (self.done s).2)
      = (⟨0, 0, false, []⟩,
         { s with effects := s.effects ++
            [Effect.timerStop, Effect.loaded, Effect.timerStop, Effect.loaded] ++
            cleanupOf cfg self._enumRequest self._enumCurrent }) := by
    rw [deliverAll_tracked cfg _ _ (done_tracked _ _), done_eq (self.done s).1, done_eq self s]
    simp
  refine ⟨done_stops_timer self s, h1, ?_, ?_, ?_⟩
  · rw [h1, h2]
  · rw [h2]
  · rw [h1, h2]
    simp [cleanupCalls, List.filter_append]

/-- C18 at concrete inputs: the loader tracks request 101 at DC 2 and a stale
cleanup for `(100, 1)` is still queued; `done()` once and twice. -/
theorem done_then_cleanup_witness :
    deliverAllKillCurrentSession 10000
      (MTProtoConfigLoader.done ⟨2, 101, true, [(100, 1)]⟩ State.initial)
      = (⟨0, 0, false, []⟩,
         { State.initial with effects := [Effect.timerStop, Effect.loaded, Effect.cancel 101,
            Effect.killSession 10002] }) ∧
    cleanupCalls (deliverAllKillCurrentSession 10000
      ((MTProtoConfigLoader.done ⟨2, 101, true, [(100, 1)]⟩ State.initial).1.done
        (MTProtoConfigLoader.done ⟨2, 101, true, [(100, 1)]⟩ State.initial).2)).2.effects
      = [Effect.cancel 101, Effect.killSession 10002] ∧
    (MTProtoConfigLoader.done ⟨2, 101, true, [(100, 1)]⟩ State.initial).1._enumDCTimer = false :=
  ⟨by decide, by decide,
   (done_then_cleanup 10000 ⟨2, 101, true, [(100, 1)]⟩ State.initial).1⟩

/-- C19: in every run of the loader from a state in which the requests sent
by `enumDC` and not cancelled are the tracked one (as for a new loader), and
in which every timeout gets a non-zero request handle, at any time of the run
at most one request sent by `enumDC` is not cancelled, and it is the one
tracked in `_enumRequest`. -/
theorem one_enumeration_request (cfg : Int) (steps : List LoaderStep) (r : LoaderState)
    (hinit : EnumTracked r) (hnz : tickHandlesNonzero steps) (k : Nat) :
    uncancelledEnum (runLoader cfg (steps.take k) r).2.effects
      = (if (runLoader cfg (steps.take k) r).1._enumRequest = 0 then []
         else [(runLoader cfg (steps.take k) r).1._enumRequest]) ∧
    (uncancelledEnum (runLoader cfg (steps.take k) r).2.effects).length ≤ 1 ∧
    (∀ h ∈ uncancelledEnum (runLoader cfg (steps.take k) r).2.effects,
      h = (runLoader cfg (steps.take k) r).1._enumRequest) := by
  have hinv : EnumTracked (runLoader cfg (steps.take k) r) := by
    apply EnumTracked_run cfg _ r _ hinit
    intro st hmem
    exact hnz st (List.mem_of_mem_take hmem)
  unfold EnumTracked at hinv
  refine ⟨hinv, ?_, ?_⟩
  · rw [hinv]
    split <;> simp
  · intro h hmem
    rw [hinv] at hmem
    split at hmem
    · simp at hmem
    · simpa using hmem

/-- C19 at a concrete run: `load()`, three timeouts, a success continuation
and the delivery of its cleanup; after the third timeout the one request of
`enumDC` not cancelled is request 103, the tracked one. -/
theorem one_enumeration_request_witness :
    uncancelledEnum (runLoader 10000 [LoaderStep.load 100, LoaderStep.tick 101,
        LoaderStep.tick 102, LoaderStep.tick 103] (MTProtoConfigLoader.new, State.initial)).2.effects
      = [103] ∧
    (uncancelledEnum (runLoader 10000 (List.take 4 [LoaderStep.load 100, LoaderStep.tick 101,
        LoaderStep.tick 102, LoaderStep.tick 103,
        LoaderStep.success ⟨200, 0, false, 1, []⟩, LoaderStep.cleanup])
      (MTProtoConfigLoader.new, State.initial)).2.effects).length ≤ 1 :=
  ⟨by decide,
   (one_enumeration_request 10000 [LoaderStep.load 100, LoaderStep.tick 101,
        LoaderStep.tick 102, LoaderStep.tick 103,
        LoaderStep.success ⟨200, 0, false, 1, []⟩, LoaderStep.cleanup]
      (MTProtoConfigLoader.new, State.initial) (by decide) (by decide) 4).2.1⟩

/-- C20: `onKillCurrentSession(request, current)` with a pair that differs
from `(_enumRequest, _enumCurrent)` in at least one component changes
nothing: no cancel, no killSession, both members as before. With the matching
pair it cancels `_enumRequest` when that is non-zero, kills the session of
`_enumCurrent` when that is non-zero, makes no other call, and sets both
members to 0, leaving the rest of the loader and of the state as it was. -/
theorem onKillCurrentSession_spec (cfg request current : Int) (self : MTProtoConfigLoader)
    (s : State) :
    (¬ (request = self._enumRequest ∧ current = self._enumCurrent) →
      self.onKillCurrentSession cfg request current s = (self, s)) ∧
    ((request = self._enumRequest ∧ current = self._enumCurrent) →
      self.onKillCurrentSession cfg request current s
        = ({ self with _enumRequest := 0, _enumCurrent := 0 },
           { s with effects := s.effects ++ cleanupOf cfg self._enumRequest self._enumCurrent })) := by
  exact ⟨onKillCurrentSession_stale cfg request current self s,
    onKillCurrentSession_match cfg request current self s⟩

/-- C20 at concrete inputs: the loader tracks request 101 at DC 2; the stale
pair `(100, 2)` changes nothing, the matching pair cancels request 101 and
kills the session of DC 2. -/
theorem onKillCurrentSession_spec_witness :
    MTProtoConfigLoader.onKillCurrentSession 10000 100 2 ⟨2, 101, false, []⟩ State.initial
      = (⟨2, 101, false, []⟩, State.initial) ∧
    MTProtoConfigLoader.onKillCurrentSession 10000 101 2 ⟨2, 101, false, []⟩ State.initial
      = (⟨0, 0, false, []⟩,
         { State.initial with effects := [Effect.cancel 101, Effect.killSession 10002] }) :=
  ⟨(onKillCurrentSession_spec 10000 100 2 ⟨2, 101, false, []⟩ State.initial).1 (by decide),
   by decide⟩

end MtpDC
